import Mathlib

/-
Verification of the structural diff engine of cfn-changeset-viewer
(src/lib/diff.mjs).  The definitions below are a shallow embedding of the
JavaScript source: JSON values become an inductive type, JS objects become
ordered association lists (JS objects preserve insertion order and have
unique keys), machine numbers are modelled as integers (no claim depends on
float behaviour), and the float comparison m / n >= 0.5 is modelled as
2 * m >= n, which is exactly equivalent for the integer ranges that occur
(both sides below 2 ^ 53).
-/

set_option maxHeartbeats 4000000

/-- JSON-compatible values (the ValidJson typedef of src/lib/diff.mjs,
lines 128-131): primitives string, number, boolean, null, the absent value
undefined, arrays, and string-keyed objects in insertion order. -/
inductive Json where
  | undef
  | null
  | bool (b : Bool)
  | num (n : Int)
  | str (s : String)
  | arr (items : List Json)
  | obj (props : List (String × Json))
deriving Repr

/-- The three classified shapes returned by getValueType. -/
inductive JsType where
  | primitive
  | array
  | object
deriving DecidableEq, Repr

/-- getValueType (diff.mjs lines 210-224): undefined, null, string, number
and boolean are primitive; arrays are array; everything else is object. -/
def getValueType : Json → JsType
  | .undef | .null | .bool _ | .num _ | .str _ => .primitive
  | .arr _ => .array
  | .obj _ => .object

/-- Model of the JS loose comparison value == null, true exactly for null
and undefined. -/
def isNullish : Json → Bool
  | .null => true
  | .undef => true
  | _ => false

/-- Model of the JS strict comparison value === undefined. -/
def isUndef : Json → Bool
  | .undef => true
  | _ => false

/-- Model of the JS strict comparison x === y restricted to primitive
values, the only place buildDiff applies it (after both sides are known to
be non-nullish primitives).  On primitives JS strict equality is value
equality. -/
def primStrictEq : Json → Json → Bool
  | .bool x, .bool y => x == y
  | .num x, .num y => x == y
  | .str x, .str y => x == y
  | .null, .null => true
  | .undef, .undef => true
  | _, _ => false

/-- One decimal digit character. -/
def decDigit (n : Nat) : Char :=
  if n = 0 then '0' else if n = 1 then '1' else if n = 2 then '2'
  else if n = 3 then '3' else if n = 4 then '4' else if n = 5 then '5'
  else if n = 6 then '6' else if n = 7 then '7' else if n = 8 then '8'
  else '9'

/-- Fuel-driven decimal digit accumulator; with fuel greater than the
number the result is the standard decimal representation. -/
def natToDecCore : Nat → Nat → List Char → List Char
  | 0, _, acc => acc
  | fuel + 1, n, acc =>
    if n < 10 then decDigit n :: acc
    else natToDecCore fuel (n / 10) (decDigit (n % 10) :: acc)

/-- Decimal representation of a natural number, modelling the JS String(n)
conversion for non-negative integers. -/
def natToDec (n : Nat) : String := String.mk (natToDecCore (n + 1) n [])

/-- Decimal representation of an integer, modelling the JS number to
string conversion used by JSON.stringify for integral numbers. -/
def intToDec (i : Int) : String :=
  if i < 0 then "-" ++ natToDec i.natAbs else natToDec i.toNat

/-- Decimal value of a digit character list (decoder used to prove the
decimal representation injective). -/
def digitsVal (l : List Char) : Nat :=
  l.foldl (fun a c => 10 * a + (c.toNat - 48)) 0

/-- JSON string escaping, one character at a time (quote, backslash and
the common control characters; other characters pass through unchanged,
which is the behaviour of JSON.stringify on the strings that occur in this
development). -/
def escapeChars : List Char → List Char
  | [] => []
  | c :: cs =>
    (if c = '"' then ['\\', '"'] else if c = '\\' then ['\\', '\\']
     else if c = '\n' then ['\\', 'n'] else if c = '\t' then ['\\', 't']
     else if c = '\r' then ['\\', 'r'] else [c]) ++ escapeChars cs

/-- A JSON string literal: the escaped text wrapped in double quotes. -/
def jsonQuote (s : String) : String :=
  String.mk ('"' :: (escapeChars s.data ++ ['"']))

mutual
/-- Model of JSON.stringify: undefined serializes to no string at all
(the JS call returns undefined), arrays render undefined elements as null,
and objects drop properties whose value is undefined. -/
def jsonStringify : Json → Option String
  | .undef => none
  | .null => some "null"
  | .bool b => some (cond b "true" "false")
  | .num n => some (intToDec n)
  | .str s => some (jsonQuote s)
  | .arr items => some ("[" ++ String.intercalate "," (stringifyItems items) ++ "]")
  | .obj props => some ("\x7b" ++ String.intercalate "," (stringifyProps props) ++ "\x7d")

/-- Serialized forms of array elements; an element whose serialization is
absent (undefined) renders as null, as JSON.stringify does. -/
def stringifyItems : List Json → List String
  | [] => []
  | x :: xs => ((jsonStringify x).getD "null") :: stringifyItems xs

/-- Serialized key:value entries of an object; entries whose value has no
serialization (undefined) are skipped, as JSON.stringify does. -/
def stringifyProps : List (String × Json) → List String
  | [] => []
  | (k, v) :: rest =>
    match jsonStringify v with
    | none => stringifyProps rest
    | some s => (jsonQuote k ++ ":" ++ s) :: stringifyProps rest
end

/-- Model of the comparison JSON.stringify(x) === JSON.stringify(y) used
by matchArrayElement (diff.mjs line 270) and buildArrayDiff (line 316):
equality of serializations, with undefined equal to undefined. -/
def deepEq (b a : Json) : Bool := jsonStringify b = jsonStringify a

/-- Keys of an association-list object, in insertion order, modelling
Object.keys. -/
def keysList (l : List (String × Json)) : List String := l.map Prod.fst

/-- Model of the JS `key in obj` test. -/
def containsKey (l : List (String × Json)) (k : String) : Bool :=
  l.any (fun kv => kv.1 == k)

/-- First binding of a key in an association-list object. -/
def lookupVal : List (String × Json) → String → Option Json
  | [], _ => none
  | (k, v) :: rest, key => if k = key then some v else lookupVal rest key

/-- Model of the JS property read obj[key], which yields undefined when
the key is absent. -/
def lookupValD (l : List (String × Json)) (key : String) : Json :=
  ((lookupVal l key).getD .undef)

/-- Insertion-order deduplication, the iteration order of a JS Set built
from a list: every key appears once, at its first occurrence. -/
def dedupKeys : List String → List String
  | [] => []
  | k :: rest => k :: dedupKeys (rest.filter (fun x => x ≠ k))
termination_by l => l.length
decreasing_by
  simp only [List.length_cons]
  exact Nat.lt_succ_of_le (List.length_filter_le _ _)

mutual
/-- matchArrayElement (diff.mjs lines 269-297): equal serializations
always match; different classified types never match; primitives otherwise
never match; objects match when at least half of the union of their key
sets is shared; arrays match when both are empty or at least half of the
index-aligned element pairs (over the longer length) recursively match.
The float test m / n >= 0.5 is rendered as 2 * m >= n. -/
def matchArrayElement (before after : Json) : Bool :=
  if deepEq before after then true
  else if getValueType before ≠ getValueType after then false
  else match before, after with
    | .obj bp, .obj ap' =>
      let beforeKeys := dedupKeys (keysList bp)
      let afterKeys := dedupKeys (keysList ap')
      let allKeys := dedupKeys (beforeKeys ++ afterKeys)
      if allKeys.length = 0 then true
      else decide (2 * (allKeys.filter
        (fun k => beforeKeys.contains k && afterKeys.contains k)).length ≥ allKeys.length)
    | .arr bl, .arr al =>
      if bl.length = 0 ∧ al.length = 0 then true
      else decide (2 * matchCount bl al ≥ max bl.length al.length)
    | _, _ => false
termination_by sizeOf before + sizeOf after + 1

/-- The loop of the array branch of matchArrayElement: the number of
index-aligned recursively matching pairs over the shorter length. -/
def matchCount : List Json → List Json → Nat
  | x :: xs, y :: ys => (if matchArrayElement x y then 1 else 0) + matchCount xs ys
  | _, _ => 0
termination_by xs ys => sizeOf xs + sizeOf ys
end

/-- Change classification of a single-node diff (the DiffChange actions of
diff.mjs); a Replace diff is the separate constructor below. -/
inductive DiffAction where
  | Default
  | Add
  | Remove
deriving DecidableEq, Repr

mutual
/-- DiffNode (diff.mjs lines 133-145): primitive value, object of per-key
diffs in insertion order, or array of per-position diffs. -/
inductive DiffNode where
  | primitive (value : Json)
  | object (properties : List (String × Diff))
  | array (items : List Diff)
deriving Repr

/-- Diff (diff.mjs lines 147-158): either an action with a single node, or
a Replace with a before node and an after node. -/
inductive Diff where
  | change (action : DiffAction) (node : DiffNode)
  | replace (beforeNode afterNode : DiffNode)
deriving Repr
end

/-- The .type tag of a DiffNode, using the same classification values as
getValueType. -/
def nodeTypeOf : DiffNode → JsType
  | .primitive _ => .primitive
  | .object _ => .object
  | .array _ => .array

/-- Array indexing at the running cursor: past the end of the array a JS
read yields undefined.  An explicit undefined element also reads as
undefined, exactly as in JS. -/
def headUndef : List Json → Json
  | [] => .undef
  | x :: _ => x

/-- The JS cast of a value already classified as array. -/
def asArr : Json → List Json
  | .arr l => l
  | _ => []

/-- The JS cast of a value already classified as object. -/
def asObj : Json → List (String × Json)
  | .obj l => l
  | _ => []

mutual
/-- createNodeFromValue (diff.mjs lines 232-260): primitives become
primitive nodes; arrays map each element to a diff carrying the override
action (or Default); objects do the same per key, skipping properties
whose value is undefined.  The trailing throw of the source is unreachable
because getValueType is total; the Except-valued mirror below keeps it. -/
def createNodeFromValue (value : Json) (actionOverride : Option DiffAction) : DiffNode :=
  match value with
  | .arr items => .array (createItems items actionOverride)
  | .obj props => .object (createProps props actionOverride)
  | v => .primitive v

/-- The array part of createNodeFromValue. -/
def createItems : List Json → Option DiffAction → List Diff
  | [], _ => []
  | x :: xs, ov => .change (ov.getD .Default) (createNodeFromValue x ov) :: createItems xs ov

/-- The object part of createNodeFromValue; undefined-valued properties
are skipped (the `continue` of line 253). -/
def createProps : List (String × Json) → Option DiffAction → List (String × Diff)
  | [], _ => []
  | (k, v) :: rest, ov =>
    match v with
    | .undef => createProps rest ov
    | v' => (k, Diff.change (ov.getD .Default) (createNodeFromValue v' ov)) :: createProps rest ov
end

mutual
/-- buildDiff (diff.mjs lines 395-447): nullish cases first, then a
Replace on differing classified types, then strict equality on primitives,
then recursion into arrays and objects.  The final throw of the source is
unreachable; the Except-valued mirror below keeps it. -/
def buildDiff (before after : Json) : Diff :=
  if isNullish before ∧ isNullish after then .change .Default (.primitive .null)
  else if isNullish before then .change .Add (createNodeFromValue after (some .Add))
  else if isNullish after then .change .Remove (createNodeFromValue before (some .Remove))
  else if getValueType before ≠ getValueType after then
    .replace (createNodeFromValue before (some .Remove)) (createNodeFromValue after (some .Add))
  else match before, after with
    | .arr beforeArray, .arr afterArray => buildArrayDiff beforeArray afterArray
    | .obj beforeObj, .obj afterObj => buildObjectDiff beforeObj afterObj
    | b, a =>
      if primStrictEq b a then .change .Default (.primitive a)
      else .replace (.primitive b) (.primitive a)
termination_by (sizeOf before + sizeOf after, 2, 0)
decreasing_by
  all_goals simp [Prod.lex_def]
  all_goals try omega

/-- buildObjectDiff (diff.mjs lines 369-388): an object node tagged
Default whose entries cover the union of the key sets, before keys first
in discovery order, then the keys only present in after. -/
def buildObjectDiff (beforeObj afterObj : List (String × Json)) : Diff :=
  .change .Default (.object (buildObjectProps beforeObj afterObj
    (dedupKeys (keysList beforeObj ++ keysList afterObj))))
termination_by (sizeOf beforeObj + sizeOf afterObj + 2, 1, 0)
decreasing_by
  all_goals simp [Prod.lex_def]
  all_goals try omega

/-- The key loop of buildObjectDiff: keys missing in before become Add
entries, keys missing in after become Remove entries, keys present on both
sides recurse through buildDiff. -/
def buildObjectProps (beforeObj afterObj : List (String × Json)) :
    List String → List (String × Diff)
  | [] => []
  | key :: rest =>
    (if containsKey beforeObj key = false then
      (key, Diff.change .Add (createNodeFromValue (lookupValD afterObj key) (some .Add)))
    else if containsKey afterObj key = false then
      (key, Diff.change .Remove (createNodeFromValue (lookupValD beforeObj key) (some .Remove)))
    else
      (key, buildDiff (lookupValD beforeObj key) (lookupValD afterObj key)))
    :: buildObjectProps beforeObj afterObj rest
termination_by ks => (sizeOf beforeObj + sizeOf afterObj + 2, 0, ks.length)
decreasing_by
  all_goals simp [Prod.lex_def]
  all_goals try omega
  have hb : ∀ (l : List (String × Json)) (k : String), sizeOf (lookupValD l k) ≤ sizeOf l := by
    intro l k
    induction l with
    | nil => simp [lookupValD, lookupVal]
    | cons kv rest ih =>
      obtain ⟨k0, v0⟩ := kv
      simp only [lookupValD, lookupVal]
      by_cases h : k0 = k
      · simp [h]
        omega
      · simp [h]
        simp [lookupValD] at ih
        omega
  exact Nat.lt_of_le_of_lt (Nat.add_le_add (hb _ _) (hb _ _)) (by omega)

/-- buildArrayDiff (diff.mjs lines 304-362): an array node tagged Default
holding the per-position diffs produced by the cursor loop. -/
def buildArrayDiff (beforeArray afterArray : List Json) : Diff :=
  .change .Default (.array (buildArrayItems beforeArray afterArray))
termination_by (sizeOf beforeArray + sizeOf afterArray + 2, 1, 0)
decreasing_by
  all_goals simp [Prod.lex_def]
  all_goals try omega

/-- The cursor loop of buildArrayDiff, expressed on the two remaining
suffixes.  Advancing a cursor is dropping the head of its suffix; reading
a cursor past the end of its array yields undefined.  A matched pair emits
a Default item when serializations agree, otherwise recurses by shape; an
unmatched before element found later in after emits an Add of the after
element; the symmetric case emits a Remove; otherwise a Replace. -/
def buildArrayItems (before after : List Json) : List Diff :=
  if hend : before.isEmpty ∧ after.isEmpty then []
  else if hm : matchArrayElement (headUndef before) (headUndef after) then
    (if hde : deepEq (headUndef before) (headUndef after) then
      [.change .Default (createNodeFromValue (headUndef after) none)]
    else if ho : getValueType (headUndef before) = .object then
      [buildObjectDiff (asObj (headUndef before)) (asObj (headUndef after))]
    else if ha : getValueType (headUndef before) = .array then
      [buildArrayDiff (asArr (headUndef before)) (asArr (headUndef after))]
    else []) ++ buildArrayItems before.tail after.tail
  else if hadd : after.tail.any (fun item => matchArrayElement (headUndef before) item)
      ∨ isUndef (headUndef before) then
    .change .Add (createNodeFromValue (headUndef after) (some .Add))
      :: buildArrayItems before after.tail
  else if hrem : before.tail.any (fun item => matchArrayElement item (headUndef after))
      ∨ isUndef (headUndef after) then
    .change .Remove (createNodeFromValue (headUndef before) (some .Remove))
      :: buildArrayItems before.tail after
  else
    .replace (createNodeFromValue (headUndef before) (some .Remove))
        (createNodeFromValue (headUndef after) (some .Add))
      :: buildArrayItems before.tail after.tail
termination_by (sizeOf before + sizeOf after + 2, 0, 0)
decreasing_by
  all_goals simp [Prod.lex_def]
  all_goals try omega
  all_goals
    have htypes : ∀ x y : Json, matchArrayElement x y = true →
        deepEq x y = true ∨ getValueType x = getValueType y := by
      intro x y h
      by_cases hd : deepEq x y = true
      · exact Or.inl hd
      · right
        by_contra hne
        rw [matchArrayElement] at h
        simp [hd, hne] at h
        all_goals rintro _ _ rfl rfl
        all_goals exact hne rfl
  all_goals
    have hmundef : matchArrayElement Json.undef Json.undef = true := by
      rw [matchArrayElement]
      simp [deepEq, jsonStringify]
      all_goals exact fun _ _ h _ => Json.noConfusion h
  · rcases htypes _ _ hm with hcontra | hta
    · exact absurd hcontra hde
    rw [ho] at hta
    rcases before with _ | ⟨b0, bt⟩
    · simp [headUndef, getValueType] at ho
    rcases after with _ | ⟨a0, at'⟩
    · simp [headUndef, getValueType] at hta
    simp only [headUndef] at ho hta ⊢
    cases b0 <;> simp [getValueType] at ho
    cases a0 <;> simp [getValueType] at hta
    simp [asObj]
    omega
  · rcases htypes _ _ hm with hcontra | hta
    · exact absurd hcontra hde
    rw [ha] at hta
    rcases before with _ | ⟨b0, bt⟩
    · simp [headUndef, getValueType] at ha
    rcases after with _ | ⟨a0, at'⟩
    · simp [headUndef, getValueType] at hta
    simp only [headUndef] at ha hta ⊢
    cases b0 <;> simp [getValueType] at ha
    cases a0 <;> simp [getValueType] at hta
    simp [asArr]
    omega
  · rcases before with _ | ⟨b0, bt⟩ <;> rcases after with _ | ⟨a0, at'⟩
    · simp at hend
    all_goals simp only [List.tail_nil, List.tail_cons]
    all_goals simp
    all_goals omega
  · rcases after with _ | ⟨a0, at'⟩
    · exfalso
      have hbu : headUndef before = Json.undef := by
        rcases hadd with h | h
        · simp at h
        · rcases before with _ | ⟨b0, bt⟩
          · rfl
          · cases b0 <;> simp [headUndef, isUndef] at h ⊢
      rw [hbu] at hm
      exact hm hmundef
    · simp
  · rcases before with _ | ⟨b0, bt⟩
    · exact absurd rfl (not_or.mp hadd).2
    · simp
  · rcases before with _ | ⟨b0, bt⟩ <;> rcases after with _ | ⟨a0, at'⟩
    · simp at hend
    all_goals simp only [List.tail_nil, List.tail_cons]
    all_goals simp
    all_goals omega
end

mutual
/-- hasChanges (diff.mjs lines 454-467): a diff whose own action is not
Default has changes (a Replace always does); a Default container has
changes when some child does; a Default primitive does not. -/
def hasChanges : Diff → Bool
  | .replace _ _ => true
  | .change action node =>
    if action ≠ DiffAction.Default then true
    else match node with
      | .object props => hasChangesProps props
      | .array items => hasChangesItems items
      | .primitive _ => false

/-- Object.values(...).some(hasChanges) over the property list. -/
def hasChangesProps : List (String × Diff) → Bool
  | [] => false
  | (_, d) :: rest => hasChanges d || hasChangesProps rest

/-- items.some(hasChanges) over the item list. -/
def hasChangesItems : List Diff → Bool
  | [] => false
  | d :: rest => hasChanges d || hasChangesItems rest
end

/-- Icon map for the three single-node actions (diff.mjs lines 170-184). -/
def actionIcon : DiffAction → String
  | .Default => " "
  | .Add => "+"
  | .Remove => "-"

/-- White ANSI wrapper, the chalk.white style. -/
def chalkWhite (s : String) : String := "\x1b[37m" ++ s ++ "\x1b[39m"

/-- Green ANSI wrapper, the chalk.green style. -/
def chalkGreen (s : String) : String := "\x1b[32m" ++ s ++ "\x1b[39m"

/-- Red ANSI wrapper, the chalk.red style. -/
def chalkRed (s : String) : String := "\x1b[31m" ++ s ++ "\x1b[39m"

/-- Bold ANSI wrapper, the chalk.bold style. -/
def chalkBold (s : String) : String := "\x1b[1m" ++ s ++ "\x1b[22m"

/-- Color map for the three single-node actions (diff.mjs lines 170-184). -/
def actionColor : DiffAction → (String → String)
  | .Default => chalkWhite
  | .Add => chalkGreen
  | .Remove => chalkRed

/-- Model of the JS test message.includes(pat): splitting on the pattern
produces at least two pieces exactly when the pattern occurs. -/
def containsSub (s pat : String) : Bool := decide ((s.splitOn pat).length ≥ 2)

/-- LogOptions (diff.mjs lines 161-167).  The color override is an
arbitrary string transformer, as a chalk style is. -/
structure LogOptions where
  showColor : Bool
  showUnchangedProperties : Bool
  indent : Nat
  colorOverride : Option (String → String) := none
  iconOverride : Option String := none

/-- Logger.formatDiffString (diff.mjs lines 192-203): icon (or override)
plus a space plus the message, wrapped in the action color (or override)
when colors are on, additionally bold when the message contains WARNING. -/
def formatDiffString (message : String) (action : DiffAction) (options : LogOptions) : String :=
  if options.showColor then
    let color := options.colorOverride.getD (actionColor action)
    if containsSub message "WARNING" then
      chalkBold (color ((options.iconOverride.getD (actionIcon action)) ++ " " ++ message))
    else color ((options.iconOverride.getD (actionIcon action)) ++ " " ++ message)
  else (options.iconOverride.getD (actionIcon action)) ++ " " ++ message

/-- The indentation string, modelling the JS repeat of a single space. -/
def spacesStr (n : Nat) : String := String.mk (List.replicate n ' ')

/-- Split a character list on the slash character, keeping empty pieces. -/
def splitSlashAux : List Char → List Char → List String
  | [], acc => [String.mk acc.reverse]
  | c :: cs, acc =>
    if c = '/' then String.mk acc.reverse :: splitSlashAux cs []
    else splitSlashAux cs (c :: acc)

/-- Split a string on the slash character, keeping empty pieces; this is
the segment view a POSIX path normalizer works on. -/
def splitSlash (s : String) : List String := splitSlashAux s.data []

/-- One step of POSIX relative-path normalization over a segment stack:
empty and dot segments are dropped, a dotdot segment pops a previous
normal segment (or accumulates at the start), and any other segment is
pushed. -/
def normStep (stack : List String) (seg : String) : List String :=
  if seg = "" || seg = "." then stack
  else if seg = ".." then
    match stack with
    | [] => [".."]
    | top :: rest => if top = ".." then seg :: top :: rest else rest
  else seg :: stack

/-- Model of the two-argument join of the node:path module (an external
platform library) for POSIX relative paths: drop empty arguments, join
the rest with a slash, then normalize dot and dotdot segments; an empty
result is the dot path.  Trailing-slash preservation is not modelled; no
path built by the renderer ends in a slash unless a caller passes a key
containing one. -/
def joinPath (p k : String) : String :=
  let parts := [p, k].filter (fun s => s ≠ "")
  let joined := String.intercalate "/" parts
  if joined = "" then "."
  else
    let out := String.intercalate "/" (((splitSlash joined).foldl normStep []).reverse)
    if out = "" then "." else out

/-- First binding of a path in the change-notes map. -/
def lookupNote : List (String × String) → String → Option String
  | [], _ => none
  | (k, v) :: rest, key => if k = key then some v else lookupNote rest key

mutual
/-- Weight of a diff, the termination measure of the renderer: a Replace
weighs more than either single-node diff built from its parts. -/
def diffWeight : Diff → Nat
  | .change _ node => 1 + nodeWeight node
  | .replace b a => 3 + nodeWeight b + nodeWeight a

/-- Weight of a diff node. -/
def nodeWeight : DiffNode → Nat
  | .primitive _ => 1
  | .object props => 1 + propsWeight props
  | .array items => 1 + itemsWeight items

/-- Weight of an object property list. -/
def propsWeight : List (String × Diff) → Nat
  | [] => 0
  | (_, d) :: rest => 1 + diffWeight d + propsWeight rest

/-- Weight of an array item list. -/
def itemsWeight : List Diff → Nat
  | [] => 0
  | d :: rest => 1 + diffWeight d + itemsWeight rest
end

mutual
/-- getDiffLines (diff.mjs lines 478-612).  Unchanged subtrees are pruned
unless requested.  A Replace renders the before node as a forced Remove
followed by the after node as a forced Add; inside an array context the
second side keeps a fresh item marker only when the diff is keyless or the
two node types differ, otherwise it is indented under the first marker.
Primitive and empty-container nodes render as one line; containers with a
key emit a header line; children render through the property and item
loops below. -/
def getDiffLines (diff : Diff) (options : LogOptions) (changeNotes : List (String × String))
    (key : String) (arrayPfx : String) (currentPath : String) : List String :=
  if !options.showUnchangedProperties && !hasChanges diff then []
  else
    match diff with
    | .replace beforeNode afterNode =>
      getDiffLines (.change .Remove beforeNode) options changeNotes key arrayPfx currentPath
      ++ (let pr :=
            if arrayPfx ≠ "" then
              if key ≠ "" ∧ nodeTypeOf beforeNode = nodeTypeOf afterNode then
                (options.indent + arrayPfx.length, "")
              else (options.indent + arrayPfx.length - 2, "- ")
            else (options.indent, arrayPfx)
          getDiffLines (.change .Add afterNode) {options with indent := pr.1}
            changeNotes key pr.2 currentPath)
    | .change action node =>
      let indentSpaces := spacesStr options.indent
      let note := match lookupNote changeNotes currentPath with
        | some n => " # " ++ n
        | none => ""
      match node with
      | .primitive v =>
        [formatDiffString (indentSpaces ++ arrayPfx ++ (if key ≠ "" then key ++ ": " else "")
          ++ ((jsonStringify v).getD "undefined") ++ note) action options]
      | .object props =>
        if props.isEmpty then
          [formatDiffString (indentSpaces ++ arrayPfx ++ (if key ≠ "" then key ++ ": " else "")
            ++ "\x7b\x7d" ++ note) action options]
        else if key ≠ "" then
          formatDiffString (indentSpaces ++ arrayPfx ++ key ++ ":" ++ note) action options
            :: renderProps props options changeNotes (options.indent + 2 + arrayPfx.length)
                 "" currentPath
        else renderProps props options changeNotes options.indent arrayPfx currentPath
      | .array items =>
        if items.isEmpty then
          [formatDiffString (indentSpaces ++ arrayPfx ++ (if key ≠ "" then key ++ ": " else "")
            ++ "[]" ++ note) action options]
        else if key ≠ "" then
          formatDiffString (indentSpaces ++ arrayPfx ++ key ++ ":" ++ note) action options
            :: renderItems items options changeNotes (options.indent + 2 + arrayPfx.length)
                 "" currentPath 0
        else renderItems items options changeNotes options.indent arrayPfx currentPath 0
termination_by diffWeight diff
decreasing_by
  all_goals simp [diffWeight, nodeWeight]
  all_goals omega

/-- The property loop of the object branch of getDiffLines: each child
renders with the running indent and the pending array marker, and the path
extended by its key; after the first child the marker is consumed and the
indent widens by its length. -/
def renderProps : List (String × Diff) → LogOptions → List (String × String) → Nat → String →
    String → List String
  | [], _, _, _, _, _ => []
  | (propertyKey, propertyDiff) :: rest, options, notes, propertyIndent, parentPfx, currentPath =>
    getDiffLines propertyDiff {options with indent := propertyIndent} notes propertyKey
      parentPfx (joinPath currentPath propertyKey)
    ++ renderProps rest options notes (propertyIndent + parentPfx.length) "" currentPath
termination_by props => propsWeight props
decreasing_by
  all_goals simp [diffWeight, propsWeight]
  all_goals omega

/-- The item loop of the array branch of getDiffLines: each item renders
keyless with the pending marker extended by a fresh item marker, and the
path extended by its one-based position; after the first item the pending
marker is consumed and the indent widens by its length. -/
def renderItems : List Diff → LogOptions → List (String × String) → Nat → String → String →
    Nat → List String
  | [], _, _, _, _, _, _ => []
  | d :: rest, options, notes, itemIndent, parentPfx, currentPath, i =>
    getDiffLines d {options with indent := itemIndent} notes ""
      (parentPfx ++ "- ") (joinPath currentPath (natToDec (i + 1)))
    ++ renderItems rest options notes (itemIndent + parentPfx.length) "" currentPath (i + 1)
termination_by items => itemsWeight items
decreasing_by
  all_goals simp [diffWeight, itemsWeight]
  all_goals omega
end

/-- The caller-facing option record of getObjectDiff (diff.mjs lines
614-623), with absent fields defaulted inside the function. -/
structure ObjectDiffOptions where
  showColor : Option Bool := none
  showUnchangedProperties : Option Bool := none
  colorOverride : Option (String → String) := none
  iconOverride : Option String := none

/-- getObjectDiff (diff.mjs lines 624-637): build the diff of the two
values and render it from indent zero with empty key, marker and path;
colors default on, unchanged properties default hidden. -/
def getObjectDiff (before after : Json) (options : ObjectDiffOptions)
    (changeNotes : List (String × String)) : List String :=
  getDiffLines (buildDiff before after)
    { indent := 0
      showColor := options.showColor.getD true
      showUnchangedProperties := options.showUnchangedProperties.getD false
      iconOverride := options.iconOverride
      colorOverride := options.colorOverride }
    changeNotes "" "" ""

mutual
/-- Except-valued mirror of createNodeFromValue keeping the source control
flow: dispatch on getValueType with the final throw of line 259 as an
error value. -/
def createNodeFromValueE (value : Json) (ov : Option DiffAction) : Except String DiffNode :=
  if getValueType value = JsType.primitive then .ok (.primitive value)
  else if h2 : getValueType value = JsType.array then
    match createItemsE (asArr value) ov with
    | .ok items => .ok (.array items)
    | .error e => .error e
  else if h3 : getValueType value = JsType.object then
    match createPropsE (asObj value) ov with
    | .ok props => .ok (.object props)
    | .error e => .error e
  else .error "unrecognized object type"
termination_by 2 * sizeOf value
decreasing_by
  all_goals cases value <;> simp_all [getValueType, asArr, asObj]
  all_goals omega

/-- Except-valued mirror of the array part of createNodeFromValue. -/
def createItemsE : List Json → Option DiffAction → Except String (List Diff)
  | [], _ => .ok []
  | x :: xs, ov =>
    match createNodeFromValueE x ov with
    | .error e => .error e
    | .ok n =>
      match createItemsE xs ov with
      | .error e => .error e
      | .ok rest => .ok (.change (ov.getD .Default) n :: rest)
termination_by l => 2 * sizeOf l
decreasing_by
  all_goals simp
  all_goals omega

/-- Except-valued mirror of the object part of createNodeFromValue. -/
def createPropsE : List (String × Json) → Option DiffAction → Except String (List (String × Diff))
  | [], _ => .ok []
  | (k, v) :: rest, ov =>
    match v with
    | .undef => createPropsE rest ov
    | v' =>
      match createNodeFromValueE v' ov with
      | .error e => .error e
      | .ok n =>
        match createPropsE rest ov with
        | .error e => .error e
        | .ok tail => .ok ((k, Diff.change (ov.getD .Default) n) :: tail)
termination_by l => 2 * sizeOf l
decreasing_by
  all_goals simp
  all_goals omega
end

mutual
/-- Except-valued mirror of buildDiff keeping the source control flow: the
sequential type dispatch of lines 420-446 with the final throw of line 446
as an error value. -/
def buildDiffE (before after : Json) : Except String Diff :=
  if isNullish before ∧ isNullish after then .ok (.change .Default (.primitive .null))
  else if isNullish before then
    match createNodeFromValueE after (some .Add) with
    | .error e => .error e
    | .ok n => .ok (.change .Add n)
  else if isNullish after then
    match createNodeFromValueE before (some .Remove) with
    | .error e => .error e
    | .ok n => .ok (.change .Remove n)
  else if hne : getValueType before ≠ getValueType after then
    match createNodeFromValueE before (some .Remove) with
    | .error e => .error e
    | .ok bn =>
      match createNodeFromValueE after (some .Add) with
      | .error e => .error e
      | .ok an => .ok (.replace bn an)
  else if getValueType before = JsType.primitive then
    if primStrictEq before after then .ok (.change .Default (.primitive after))
    else .ok (.replace (.primitive before) (.primitive after))
  else if hta : getValueType before = JsType.array then
    buildArrayDiffE (asArr before) (asArr after)
  else if hto : getValueType before = JsType.object then
    buildObjectDiffE (asObj before) (asObj after)
  else .error "unhandled type"
termination_by (sizeOf before + sizeOf after, 2, 0)
decreasing_by
  · have heq := not_not.mp hne
    rw [hta] at heq
    cases before <;> simp [getValueType] at hta
    cases after <;> simp [getValueType] at heq
    simp [asArr, Prod.lex_def]
    omega
  · have heq := not_not.mp hne
    rw [hto] at heq
    cases before <;> simp [getValueType] at hto
    cases after <;> simp [getValueType] at heq
    simp [asObj, Prod.lex_def]
    omega

/-- Except-valued mirror of buildObjectDiff. -/
def buildObjectDiffE (beforeObj afterObj : List (String × Json)) : Except String Diff :=
  match buildObjectPropsE beforeObj afterObj
      (dedupKeys (keysList beforeObj ++ keysList afterObj)) with
  | .error e => .error e
  | .ok props => .ok (.change .Default (.object props))
termination_by (sizeOf beforeObj + sizeOf afterObj + 2, 1, 0)
decreasing_by
  all_goals simp [Prod.lex_def]

/-- Except-valued mirror of the key loop of buildObjectDiff. -/
def buildObjectPropsE (beforeObj afterObj : List (String × Json)) :
    List String → Except String (List (String × Diff))
  | [] => .ok []
  | key :: rest =>
    if containsKey beforeObj key = false then
      match createNodeFromValueE (lookupValD afterObj key) (some .Add),
            buildObjectPropsE beforeObj afterObj rest with
      | .error e, _ => .error e
      | _, .error e => .error e
      | .ok n, .ok tail => .ok ((key, Diff.change .Add n) :: tail)
    else if containsKey afterObj key = false then
      match createNodeFromValueE (lookupValD beforeObj key) (some .Remove),
            buildObjectPropsE beforeObj afterObj rest with
      | .error e, _ => .error e
      | _, .error e => .error e
      | .ok n, .ok tail => .ok ((key, Diff.change .Remove n) :: tail)
    else
      match buildDiffE (lookupValD beforeObj key) (lookupValD afterObj key),
            buildObjectPropsE beforeObj afterObj rest with
      | .error e, _ => .error e
      | _, .error e => .error e
      | .ok d, .ok tail => .ok ((key, d) :: tail)
termination_by ks => (sizeOf beforeObj + sizeOf afterObj + 2, 0, ks.length)
decreasing_by
  all_goals simp [Prod.lex_def]
  all_goals try omega
  have hb : ∀ (l : List (String × Json)) (k : String), sizeOf (lookupValD l k) ≤ sizeOf l := by
    intro l k
    induction l with
    | nil => simp [lookupValD, lookupVal]
    | cons kv rest ih =>
      obtain ⟨k0, v0⟩ := kv
      simp only [lookupValD, lookupVal]
      by_cases h : k0 = k
      · simp [h]
        omega
      · simp [h]
        simp [lookupValD] at ih
        omega
  exact Nat.lt_of_le_of_lt (Nat.add_le_add (hb _ _) (hb _ _)) (by omega)

/-- Except-valued mirror of buildArrayDiff. -/
def buildArrayDiffE (beforeArray afterArray : List Json) : Except String Diff :=
  match buildArrayItemsE beforeArray afterArray with
  | .error e => .error e
  | .ok items => .ok (.change .Default (.array items))
termination_by (sizeOf beforeArray + sizeOf afterArray + 2, 1, 0)
decreasing_by
  all_goals simp [Prod.lex_def]

/-- Except-valued mirror of the cursor loop of buildArrayDiff. -/
def buildArrayItemsE (before after : List Json) : Except String (List Diff)  :=
  if hend : before.isEmpty ∧ after.isEmpty then .ok []
  else if hm : matchArrayElement (headUndef before) (headUndef after) then
    match (if hde : deepEq (headUndef before) (headUndef after) then
        match createNodeFromValueE (headUndef after) none with
        | .error e => .error e
        | .ok n => .ok [Diff.change .Default n]
      else if ho : getValueType (headUndef before) = JsType.object then
        match buildObjectDiffE (asObj (headUndef before)) (asObj (headUndef after)) with
        | .error e => .error e
        | .ok d => .ok [d]
      else if ha : getValueType (headUndef before) = JsType.array then
        match buildArrayDiffE (asArr (headUndef before)) (asArr (headUndef after)) with
        | .error e => .error e
        | .ok d => .ok [d]
      else (.ok [] : Except String (List Diff))),
      buildArrayItemsE before.tail after.tail with
    | .error e, _ => .error e
    | _, .error e => .error e
    | .ok emitted, .ok rest => .ok (emitted ++ rest)
  else if hadd : after.tail.any (fun item => matchArrayElement (headUndef before) item)
      ∨ isUndef (headUndef before) then
    match createNodeFromValueE (headUndef after) (some .Add),
          buildArrayItemsE before after.tail with
    | .error e, _ => .error e
    | _, .error e => .error e
    | .ok n, .ok rest => .ok (.change .Add n :: rest)
  else if hrem : before.tail.any (fun item => matchArrayElement item (headUndef after))
      ∨ isUndef (headUndef after) then
    match createNodeFromValueE (headUndef before) (some .Remove),
          buildArrayItemsE before.tail after with
    | .error e, _ => .error e
    | _, .error e => .error e
    | .ok n, .ok rest => .ok (.change .Remove n :: rest)
  else
    match createNodeFromValueE (headUndef before) (some .Remove),
          createNodeFromValueE (headUndef after) (some .Add),
          buildArrayItemsE before.tail after.tail with
    | .error e, _, _ => .error e
    | _, .error e, _ => .error e
    | _, _, .error e => .error e
    | .ok bn, .ok an, .ok rest => .ok (.replace bn an :: rest)
termination_by (sizeOf before + sizeOf after + 2, 0, 0)
decreasing_by
  all_goals simp [Prod.lex_def]
  all_goals try omega
  all_goals
    have htypes : ∀ x y : Json, matchArrayElement x y = true →
        deepEq x y = true ∨ getValueType x = getValueType y := by
      intro x y h
      by_cases hd : deepEq x y = true
      · exact Or.inl hd
      · right
        by_contra hne
        rw [matchArrayElement] at h
        simp [hd, hne] at h
        all_goals rintro _ _ rfl rfl
        all_goals exact hne rfl
  all_goals
    have hmundef : matchArrayElement Json.undef Json.undef = true := by
      rw [matchArrayElement]
      simp [deepEq, jsonStringify]
      all_goals exact fun _ _ h _ => Json.noConfusion h
  · rcases htypes _ _ hm with hcontra | hta
    · exact absurd hcontra hde
    rw [ho] at hta
    rcases before with _ | ⟨b0, bt⟩
    · simp [headUndef, getValueType] at ho
    rcases after with _ | ⟨a0, at'⟩
    · simp [headUndef, getValueType] at hta
    simp only [headUndef] at ho hta ⊢
    cases b0 <;> simp [getValueType] at ho
    cases a0 <;> simp [getValueType] at hta
    simp [asObj]
    omega
  · rcases htypes _ _ hm with hcontra | hta
    · exact absurd hcontra hde
    rw [ha] at hta
    rcases before with _ | ⟨b0, bt⟩
    · simp [headUndef, getValueType] at ha
    rcases after with _ | ⟨a0, at'⟩
    · simp [headUndef, getValueType] at hta
    simp only [headUndef] at ha hta ⊢
    cases b0 <;> simp [getValueType] at ha
    cases a0 <;> simp [getValueType] at hta
    simp [asArr]
    omega
  · rcases before with _ | ⟨b0, bt⟩ <;> rcases after with _ | ⟨a0, at'⟩
    · simp at hend
    all_goals simp only [List.tail_nil, List.tail_cons]
    all_goals simp
    all_goals omega
  · rcases after with _ | ⟨a0, at'⟩
    · exfalso
      have hbu : headUndef before = Json.undef := by
        rcases hadd with h | h
        · simp at h
        · rcases before with _ | ⟨b0, bt⟩
          · rfl
          · cases b0 <;> simp [headUndef, isUndef] at h ⊢
      rw [hbu] at hm
      exact hm hmundef
    · simp
  · rcases before with _ | ⟨b0, bt⟩
    · exact absurd rfl (not_or.mp hadd).2
    · simp
  · rcases before with _ | ⟨b0, bt⟩ <;> rcases after with _ | ⟨a0, at'⟩
    · simp at hend
    all_goals simp only [List.tail_nil, List.tail_cons]
    all_goals simp
    all_goals omega
end

/-- Except-valued mirror of getObjectDiff: any error of the build phase
propagates; the renderer itself has no failure branch. -/
def getObjectDiffE (before after : Json) (options : ObjectDiffOptions)
    (changeNotes : List (String × String)) : Except String (List String) :=
  match buildDiffE before after with
  | .error e => .error e
  | .ok diff =>
    .ok (getDiffLines diff
      { indent := 0
        showColor := options.showColor.getD true
        showUnchangedProperties := options.showUnchangedProperties.getD false
        iconOverride := options.iconOverride
        colorOverride := options.colorOverride }
      changeNotes "" "" "")

/-- The plain slash-join of the claim wording: append the new segment to
the path with a slash separator (at the root the path is the segment). -/
def slashJoin (p k : String) : String := if p = "" then k else p ++ "/" ++ k

mutual
/-- Claim-side renderer: identical to getDiffLines except that annotation
paths are extended with the plain slashJoin instead of the node:path join.
Used to compare the renderer of the source with the claimed slash-joined
path semantics. -/
def getDiffLinesSpec (diff : Diff) (options : LogOptions) (changeNotes : List (String × String))
    (key : String) (arrayPfx : String) (currentPath : String) : List String :=
  if !options.showUnchangedProperties && !hasChanges diff then []
  else
    match diff with
    | .replace beforeNode afterNode =>
      getDiffLinesSpec (.change .Remove beforeNode) options changeNotes key arrayPfx currentPath
      ++ (let pr :=
            if arrayPfx ≠ "" then
              if key ≠ "" ∧ nodeTypeOf beforeNode = nodeTypeOf afterNode then
                (options.indent + arrayPfx.length, "")
              else (options.indent + arrayPfx.length - 2, "- ")
            else (options.indent, arrayPfx)
          getDiffLinesSpec (.change .Add afterNode) {options with indent := pr.1}
            changeNotes key pr.2 currentPath)
    | .change action node =>
      let indentSpaces := spacesStr options.indent
      let note := match lookupNote changeNotes currentPath with
        | some n => " # " ++ n
        | none => ""
      match node with
      | .primitive v =>
        [formatDiffString (indentSpaces ++ arrayPfx ++ (if key ≠ "" then key ++ ": " else "")
          ++ ((jsonStringify v).getD "undefined") ++ note) action options]
      | .object props =>
        if props.isEmpty then
          [formatDiffString (indentSpaces ++ arrayPfx ++ (if key ≠ "" then key ++ ": " else "")
            ++ "\x7b\x7d" ++ note) action options]
        else if key ≠ "" then
          formatDiffString (indentSpaces ++ arrayPfx ++ key ++ ":" ++ note) action options
            :: renderPropsSpec props options changeNotes (options.indent + 2 + arrayPfx.length)
                 "" currentPath
        else renderPropsSpec props options changeNotes options.indent arrayPfx currentPath
      | .array items =>
        if items.isEmpty then
          [formatDiffString (indentSpaces ++ arrayPfx ++ (if key ≠ "" then key ++ ": " else "")
            ++ "[]" ++ note) action options]
        else if key ≠ "" then
          formatDiffString (indentSpaces ++ arrayPfx ++ key ++ ":" ++ note) action options
            :: renderItemsSpec items options changeNotes (options.indent + 2 + arrayPfx.length)
                 "" currentPath 0
        else renderItemsSpec items options changeNotes options.indent arrayPfx currentPath 0
termination_by diffWeight diff
decreasing_by
  all_goals simp [diffWeight, nodeWeight]
  all_goals omega

/-- Claim-side property loop, extending paths with slashJoin. -/
def renderPropsSpec : List (String × Diff) → LogOptions → List (String × String) → Nat →
    String → String → List String
  | [], _, _, _, _, _ => []
  | (propertyKey, propertyDiff) :: rest, options, notes, propertyIndent, parentPfx, currentPath =>
    getDiffLinesSpec propertyDiff {options with indent := propertyIndent} notes propertyKey
      parentPfx (slashJoin currentPath propertyKey)
    ++ renderPropsSpec rest options notes (propertyIndent + parentPfx.length) "" currentPath
termination_by props => propsWeight props
decreasing_by
  all_goals simp [diffWeight, propsWeight]
  all_goals omega

/-- Claim-side item loop, extending paths with slashJoin. -/
def renderItemsSpec : List Diff → LogOptions → List (String × String) → Nat → String →
    String → Nat → List String
  | [], _, _, _, _, _, _ => []
  | d :: rest, options, notes, itemIndent, parentPfx, currentPath, i =>
    getDiffLinesSpec d {options with indent := itemIndent} notes ""
      (parentPfx ++ "- ") (slashJoin currentPath (natToDec (i + 1)))
    ++ renderItemsSpec rest options notes (itemIndent + parentPfx.length) "" currentPath (i + 1)
termination_by items => itemsWeight items
decreasing_by
  all_goals simp [diffWeight, itemsWeight]
  all_goals omega
end

/-- Claim-side wrapper of getObjectDiff built on the slash-joined-path
renderer. -/
def getObjectDiffSpec (before after : Json) (options : ObjectDiffOptions)
    (changeNotes : List (String × String)) : List String :=
  getDiffLinesSpec (buildDiff before after)
    { indent := 0
      showColor := options.showColor.getD true
      showUnchangedProperties := options.showUnchangedProperties.getD false
      iconOverride := options.iconOverride
      colorOverride := options.colorOverride }
    changeNotes "" "" ""

mutual
/-- Whether every diff reachable in a diff tree carries the Default
action (a Replace never does). -/
def diffAllDefault : Diff → Bool
  | .replace _ _ => false
  | .change act node => (act == DiffAction.Default) && nodeAllDefault node

/-- Whether every diff reachable in a node carries the Default action. -/
def nodeAllDefault : DiffNode → Bool
  | .primitive _ => true
  | .object props => propsAllDefault props
  | .array items => itemsAllDefault items

/-- Whether every diff reachable in a property list is Default. -/
def propsAllDefault : List (String × Diff) → Bool
  | [] => true
  | (_, d) :: rest => diffAllDefault d && propsAllDefault rest

/-- Whether every diff reachable in an item list is Default. -/
def itemsAllDefault : List Diff → Bool
  | [] => true
  | d :: rest => diffAllDefault d && itemsAllDefault rest
end

mutual
/-- Whether every diff reachable in a diff tree carries the given
single-node action. -/
def diffAllTagged (a : DiffAction) : Diff → Bool
  | .replace _ _ => false
  | .change act node => (act == a) && nodeAllTagged a node

/-- Whether every diff reachable in a node carries the given action. -/
def nodeAllTagged (a : DiffAction) : DiffNode → Bool
  | .primitive _ => true
  | .object props => propsAllTagged a props
  | .array items => itemsAllTagged a items

/-- Property-list form of nodeAllTagged. -/
def propsAllTagged (a : DiffAction) : List (String × Diff) → Bool
  | [] => true
  | (_, d) :: rest => diffAllTagged a d && propsAllTagged a rest

/-- Item-list form of nodeAllTagged. -/
def itemsAllTagged (a : DiffAction) : List Diff → Bool
  | [] => true
  | d :: rest => diffAllTagged a d && itemsAllTagged a rest
end

mutual
/-- Forget every action in a diff tree (for comparing tree shapes and
contents while ignoring the Add/Remove tagging). -/
def eraseActsD : Diff → Diff
  | .change _ n => .change .Default (eraseActsN n)
  | .replace b a => .replace (eraseActsN b) (eraseActsN a)

/-- Forget every action inside a node. -/
def eraseActsN : DiffNode → DiffNode
  | .primitive v => .primitive v
  | .object props => .object (erasePropsActs props)
  | .array items => .array (eraseItemsActs items)

/-- Property-list form of eraseActsN. -/
def erasePropsActs : List (String × Diff) → List (String × Diff)
  | [] => []
  | (k, d) :: rest => (k, eraseActsD d) :: erasePropsActs rest

/-- Item-list form of eraseActsN. -/
def eraseItemsActs : List Diff → List Diff
  | [] => []
  | d :: rest => eraseActsD d :: eraseItemsActs rest
end

/-- A plain path segment: nonempty, not the dot or dotdot segment, and
containing no slash.  For such segments the node:path join is plain
slash concatenation. -/
def plainSeg (s : String) : Bool :=
  s ≠ "" && s ≠ "." && s ≠ ".." && !(s.data.contains '/')

/-- A plain path: nonempty and made of plain slash-separated segments. -/
def plainPath (p : String) : Bool := p ≠ "" && (splitSlash p).all plainSeg

mutual
/-- Whether every object key occurring anywhere in a diff tree is a plain
path segment. -/
def diffKeysPlain : Diff → Bool
  | .change _ n => nodeKeysPlain n
  | .replace b a => nodeKeysPlain b && nodeKeysPlain a

/-- Node form of diffKeysPlain. -/
def nodeKeysPlain : DiffNode → Bool
  | .primitive _ => true
  | .object props => propsKeysPlain props
  | .array items => itemsKeysPlain items

/-- Property-list form of diffKeysPlain. -/
def propsKeysPlain : List (String × Diff) → Bool
  | [] => true
  | (k, d) :: rest => plainSeg k && diffKeysPlain d && propsKeysPlain rest

/-- Item-list form of diffKeysPlain. -/
def itemsKeysPlain : List Diff → Bool
  | [] => true
  | d :: rest => diffKeysPlain d && itemsKeysPlain rest
end

/-- The object matching condition in the words of the claim: with the key
sets of the two objects taken as finite sets of strings, the union is
empty, or the size of the intersection divided by the size of the union is
at least one half (exact rational arithmetic). -/
def specObjMatch (bp aps : List (String × Json)) : Prop :=
  (keysList bp).toFinset ∪ (keysList aps).toFinset = ∅ ∨
  (1 : ℚ) / 2 ≤ (((keysList bp).toFinset ∩ (keysList aps).toFinset).card : ℚ) /
    (((keysList bp).toFinset ∪ (keysList aps).toFinset).card : ℚ)

/-- The array matching condition in the words of the claim: both arrays
are empty, or the number of index-aligned recursively matching pairs over
the shorter length, divided by the longer length, is at least one half
(exact rational arithmetic). -/
def specArrMatch (bl al : List Json) : Prop :=
  (bl = [] ∧ al = []) ∨
  (1 : ℚ) / 2 ≤
    (((bl.zip al).filter (fun p => matchArrayElement p.1 p.2)).length : ℚ) /
    ((max bl.length al.length : ℕ) : ℚ)

theorem json_size_ind (P : Json → Prop)
    (hundef : P .undef) (hnull : P .null) (hbool : ∀ b, P (.bool b))
    (hnum : ∀ n, P (.num n)) (hstr : ∀ s, P (.str s))
    (harr : ∀ items, (∀ x ∈ items, P x) → P (.arr items))
    (hobj : ∀ props, (∀ kv ∈ props, P kv.2) → P (.obj props)) :
    ∀ v, P v := by
  have main : ∀ (n : Nat) (v : Json), sizeOf v ≤ n → P v := by
    intro n
    induction n with
    | zero => intro v hv; cases v <;> simp at hv
    | succ n ih =>
      intro v hv
      cases v with
      | undef => exact hundef
      | null => exact hnull
      | bool b => exact hbool b
      | num m => exact hnum m
      | str s => exact hstr s
      | arr items =>
        refine harr items (fun x hx => ih x ?_)
        have := List.sizeOf_lt_of_mem hx
        simp at hv
        omega
      | obj props =>
        refine hobj props (fun kv hkv => ih kv.2 ?_)
        have h1 := List.sizeOf_lt_of_mem hkv
        have h2 : sizeOf kv.2 < sizeOf kv := by
          obtain ⟨a, b⟩ := kv
          simp <;> omega
        simp at hv
        omega
  exact fun v => main (sizeOf v) v le_rfl

theorem deepEq_refl (v : Json) : deepEq v v = true := by
  simp [deepEq]

theorem matchArrayElement_refl (v : Json) : matchArrayElement v v = true := by
  cases v <;> simp [matchArrayElement, deepEq_refl]

theorem containsKey_iff (l : List (String × Json)) (k : String) :
    containsKey l k = true ↔ k ∈ keysList l := by
  simp [containsKey, keysList, List.any_eq_true]

theorem lookupVal_mem (l : List (String × Json)) (k : String) (v : Json)
    (h : lookupVal l k = some v) : (k, v) ∈ l := by
  induction l with
  | nil => simp [lookupVal] at h
  | cons kv rest ih =>
    obtain ⟨k0, v0⟩ := kv
    rw [lookupVal] at h
    by_cases hk : k0 = k
    · simp [hk] at h
      simp [hk, h]
    · simp [hk] at h
      simp [ih h]

theorem containsKey_lookupVal (l : List (String × Json)) (k : String)
    (h : containsKey l k = true) : ∃ v, lookupVal l k = some v := by
  induction l with
  | nil => simp [containsKey] at h
  | cons kv rest ih =>
    obtain ⟨k0, v0⟩ := kv
    rw [containsKey] at h
    by_cases hk : k0 = k
    · exact ⟨v0, by simp [lookupVal, hk]⟩
    · simp [hk] at h
      obtain ⟨v, hv⟩ := ih (by simpa [containsKey] using h)
      exact ⟨v, by simp [lookupVal, hk, hv]⟩

theorem mem_of_mem_dedupKeys : ∀ (l : List String) (k : String), k ∈ dedupKeys l → k ∈ l := by
  have main : ∀ (n : Nat) (l : List String), l.length ≤ n → ∀ k, k ∈ dedupKeys l → k ∈ l := by
    intro n
    induction n with
    | zero =>
      intro l hl k hk
      cases l with
      | nil => simp [dedupKeys] at hk
      | cons k0 rest => simp at hl
    | succ n ih =>
      intro l hl k hk
      cases l with
      | nil => simp [dedupKeys] at hk
      | cons k0 rest =>
        rw [dedupKeys] at hk
        rcases List.mem_cons.mp hk with h | h
        · simp [h]
        · have hlen : (rest.filter (fun x => x ≠ k0)).length ≤ n :=
            le_trans (List.length_filter_le _ _) (by simp at hl; omega)
          have hmem := ih _ hlen k h
          exact List.mem_cons.mpr (Or.inr (List.mem_of_mem_filter hmem))
  exact fun l k hk => main l.length l le_rfl k hk

theorem diff_size_ind (P : Diff → Prop)
    (hprim : ∀ a v, P (.change a (.primitive v)))
    (hobj : ∀ a props, (∀ kv ∈ props, P kv.2) → P (.change a (.object props)))
    (harr : ∀ a items, (∀ d ∈ items, P d) → P (.change a (.array items)))
    (hrep : ∀ b a, P (.replace b a)) :
    ∀ d, P d := by
  have main : ∀ (n : Nat) (d : Diff), sizeOf d ≤ n → P d := by
    intro n
    induction n with
    | zero => intro d hd; cases d <;> simp at hd
    | succ n ih =>
      intro d hd
      cases d with
      | replace b a => exact hrep b a
      | change a node =>
        cases node with
        | primitive v => exact hprim a v
        | object props =>
          refine hobj a props (fun kv hkv => ih kv.2 ?_)
          have h1 := List.sizeOf_lt_of_mem hkv
          have h2 : sizeOf kv.2 < sizeOf kv := by
            obtain ⟨x, y⟩ := kv
            simp <;> omega
          simp at hd
          omega
        | array items =>
          refine harr a items (fun x hx => ih x ?_)
          have := List.sizeOf_lt_of_mem hx
          simp at hd
          omega
  exact fun d => main (sizeOf d) d le_rfl

theorem createItems_none_allDefault (l : List Json)
    (h : ∀ x ∈ l, nodeAllDefault (createNodeFromValue x none) = true) :
    itemsAllDefault (createItems l none) = true := by
  induction l with
  | nil => simp [createItems, itemsAllDefault]
  | cons x xs ih =>
    rw [createItems, itemsAllDefault]
    simp [diffAllDefault]
    exact ⟨h x (by simp), ih (fun y hy => h y (by simp [hy]))⟩

theorem createProps_none_allDefault (l : List (String × Json))
    (h : ∀ kv ∈ l, nodeAllDefault (createNodeFromValue kv.2 none) = true) :
    propsAllDefault (createProps l none) = true := by
  induction l with
  | nil => simp [createProps, propsAllDefault]
  | cons kv rest ih =>
    obtain ⟨k, v⟩ := kv
    have htail : propsAllDefault (createProps rest none) = true :=
      ih (fun y hy => h y (by simp [hy]))
    have hhead : nodeAllDefault (createNodeFromValue v none) = true := h (k, v) (by simp)
    cases v
    case undef =>
      rw [createProps]
      exact htail
    all_goals rw [createProps, propsAllDefault]
    all_goals simp [diffAllDefault]
    all_goals exact ⟨hhead, htail⟩

theorem createNodeFromValue_none_allDefault :
    ∀ v, nodeAllDefault (createNodeFromValue v none) = true := by
  intro v
  induction v using json_size_ind with
  | hundef => simp [createNodeFromValue, nodeAllDefault]
  | hnull => simp [createNodeFromValue, nodeAllDefault]
  | hbool b => simp [createNodeFromValue, nodeAllDefault]
  | hnum n => simp [createNodeFromValue, nodeAllDefault]
  | hstr s => simp [createNodeFromValue, nodeAllDefault]
  | harr items hmem =>
    rw [createNodeFromValue, nodeAllDefault]
    exact createItems_none_allDefault items hmem
  | hobj props hmem =>
    rw [createNodeFromValue, nodeAllDefault]
    exact createProps_none_allDefault props hmem

theorem buildArrayItems_self_allDefault (l : List Json) :
    itemsAllDefault (buildArrayItems l l) = true := by
  induction l with
  | nil =>
    rw [buildArrayItems]
    simp [itemsAllDefault]
  | cons x xs ih =>
    rw [buildArrayItems]
    simp [headUndef, matchArrayElement_refl, deepEq_refl, itemsAllDefault, diffAllDefault,
      createNodeFromValue_none_allDefault, ih]

theorem buildObjectProps_self_allDefault (props : List (String × Json))
    (hval : ∀ kv ∈ props, diffAllDefault (buildDiff kv.2 kv.2) = true) :
    ∀ ks, (∀ k ∈ ks, containsKey props k = true) →
      propsAllDefault (buildObjectProps props props ks) = true := by
  intro ks
  induction ks with
  | nil =>
    intro _
    rw [buildObjectProps]
    simp [propsAllDefault]
  | cons key rest ih =>
    intro hks
    have hc : containsKey props key = true := hks key (by simp)
    rw [buildObjectProps]
    rw [if_neg (show ¬(containsKey props key = false) by simp [hc])]
    rw [if_neg (show ¬(containsKey props key = false) by simp [hc])]
    rw [propsAllDefault]
    simp only [Bool.and_eq_true]
    constructor
    · obtain ⟨v, hv⟩ := containsKey_lookupVal props key hc
      have hvd : lookupValD props key = v := by simp [lookupValD, hv]
      rw [hvd]
      exact hval (key, v) (lookupVal_mem _ _ _ hv)
    · exact ih (fun k hk => hks k (by simp [hk]))

theorem buildDiff_self_allDefault : ∀ v, diffAllDefault (buildDiff v v) = true := by
  intro v
  induction v using json_size_ind with
  | hundef => simp [buildDiff, isNullish, diffAllDefault, nodeAllDefault]
  | hnull => simp [buildDiff, isNullish, diffAllDefault, nodeAllDefault]
  | hbool b => simp [buildDiff, isNullish, getValueType, primStrictEq, diffAllDefault, nodeAllDefault]
  | hnum n => simp [buildDiff, isNullish, getValueType, primStrictEq, diffAllDefault, nodeAllDefault]
  | hstr s => simp [buildDiff, isNullish, getValueType, primStrictEq, diffAllDefault, nodeAllDefault]
  | harr items hmem =>
    simp [buildDiff, isNullish, getValueType, buildArrayDiff, diffAllDefault, nodeAllDefault,
      buildArrayItems_self_allDefault]
  | hobj props hmem =>
    have hstep : diffAllDefault (buildObjectDiff props props) = true := by
      rw [buildObjectDiff]
      rw [diffAllDefault]
      simp only [Bool.and_eq_true]
      refine ⟨by simp, ?_⟩
      rw [nodeAllDefault]
      refine buildObjectProps_self_allDefault props hmem _ (fun k hk => ?_)
      have hmemk := mem_of_mem_dedupKeys _ _ hk
      rw [containsKey_iff]
      rcases List.mem_append.mp hmemk with h | h
      · exact h
      · exact h
    simpa [buildDiff, isNullish, getValueType] using hstep

theorem propsAllDefault_mem (props : List (String × Diff)) (h : propsAllDefault props = true) :
    ∀ kv ∈ props, diffAllDefault kv.2 = true := by
  induction props with
  | nil => simp
  | cons kv rest ih =>
    obtain ⟨k, d⟩ := kv
    rw [propsAllDefault] at h
    simp only [Bool.and_eq_true] at h
    intro x hx
    rcases List.mem_cons.mp hx with h1 | h1
    · rw [h1]
      exact h.1
    · exact ih h.2 x h1

theorem itemsAllDefault_mem (items : List Diff) (h : itemsAllDefault items = true) :
    ∀ d ∈ items, diffAllDefault d = true := by
  induction items with
  | nil => simp
  | cons d rest ih =>
    rw [itemsAllDefault] at h
    simp only [Bool.and_eq_true] at h
    intro x hx
    rcases List.mem_cons.mp hx with h1 | h1
    · rw [h1]
      exact h.1
    · exact ih h.2 x h1

theorem hasChangesProps_false (props : List (String × Diff))
    (h : ∀ kv ∈ props, hasChanges kv.2 = false) : hasChangesProps props = false := by
  induction props with
  | nil => rw [hasChangesProps]
  | cons kv rest ih =>
    obtain ⟨k, d⟩ := kv
    rw [hasChangesProps]
    simp only [Bool.or_eq_false_iff]
    exact ⟨h (k, d) (by simp), ih (fun x hx => h x (by simp [hx]))⟩

theorem hasChangesItems_false (items : List Diff)
    (h : ∀ d ∈ items, hasChanges d = false) : hasChangesItems items = false := by
  induction items with
  | nil => rw [hasChangesItems]
  | cons d rest ih =>
    rw [hasChangesItems]
    simp only [Bool.or_eq_false_iff]
    exact ⟨h d (by simp), ih (fun x hx => h x (by simp [hx]))⟩

theorem hasChanges_false_of_allDefault :
    ∀ d, diffAllDefault d = true → hasChanges d = false := by
  intro d
  induction d using diff_size_ind with
  | hprim a v =>
    intro h
    rw [diffAllDefault] at h
    simp only [Bool.and_eq_true, beq_iff_eq] at h
    simp [hasChanges, h.1]
  | hobj a props hmem =>
    intro h
    rw [diffAllDefault] at h
    simp only [Bool.and_eq_true, beq_iff_eq] at h
    rw [nodeAllDefault] at h
    rw [hasChanges]
    simp [h.1]
    exact hasChangesProps_false props
      (fun kv hkv => hmem kv hkv (propsAllDefault_mem props h.2 kv hkv))
  | harr a items hmem =>
    intro h
    rw [diffAllDefault] at h
    simp only [Bool.and_eq_true, beq_iff_eq] at h
    rw [nodeAllDefault] at h
    rw [hasChanges]
    simp [h.1]
    exact hasChangesItems_false items
      (fun x hx => hmem x hx (itemsAllDefault_mem items h.2 x hx))
  | hrep b a =>
    intro h
    rw [diffAllDefault] at h
    exact absurd h (by simp)

theorem getDiffLines_nil_of_unchanged (d : Diff) (opts : LogOptions)
    (notes : List (String × String)) (key apfx p : String)
    (h1 : opts.showUnchangedProperties = false) (h2 : hasChanges d = false) :
    getDiffLines d opts notes key apfx p = [] := by
  rw [getDiffLines.eq_def]
  simp [h1, h2]

theorem createItems_some_allTagged (a : DiffAction) (l : List Json)
    (h : ∀ x ∈ l, nodeAllTagged a (createNodeFromValue x (some a)) = true) :
    itemsAllTagged a (createItems l (some a)) = true := by
  induction l with
  | nil => simp [createItems, itemsAllTagged]
  | cons x xs ih =>
    rw [createItems, itemsAllTagged]
    simp [diffAllTagged]
    exact ⟨h x (by simp), ih (fun y hy => h y (by simp [hy]))⟩

theorem createProps_some_allTagged (a : DiffAction) (l : List (String × Json))
    (h : ∀ kv ∈ l, nodeAllTagged a (createNodeFromValue kv.2 (some a)) = true) :
    propsAllTagged a (createProps l (some a)) = true := by
  induction l with
  | nil => simp [createProps, propsAllTagged]
  | cons kv rest ih =>
    obtain ⟨k, v⟩ := kv
    have htail : propsAllTagged a (createProps rest (some a)) = true :=
      ih (fun y hy => h y (by simp [hy]))
    have hhead : nodeAllTagged a (createNodeFromValue v (some a)) = true := h (k, v) (by simp)
    cases v
    case undef =>
      rw [createProps]
      exact htail
    all_goals rw [createProps, propsAllTagged]
    all_goals simp [diffAllTagged]
    all_goals exact ⟨hhead, htail⟩

theorem createNodeFromValue_some_allTagged :
    ∀ (v : Json) (a : DiffAction), nodeAllTagged a (createNodeFromValue v (some a)) = true := by
  intro v
  induction v using json_size_ind with
  | hundef => intro a; simp [createNodeFromValue, nodeAllTagged]
  | hnull => intro a; simp [createNodeFromValue, nodeAllTagged]
  | hbool b => intro a; simp [createNodeFromValue, nodeAllTagged]
  | hnum n => intro a; simp [createNodeFromValue, nodeAllTagged]
  | hstr s => intro a; simp [createNodeFromValue, nodeAllTagged]
  | harr items hmem =>
    intro a
    rw [createNodeFromValue, nodeAllTagged]
    exact createItems_some_allTagged a items (fun x hx => hmem x hx a)
  | hobj props hmem =>
    intro a
    rw [createNodeFromValue, nodeAllTagged]
    exact createProps_some_allTagged a props (fun kv hkv => hmem kv hkv a)

theorem eraseItemsActs_createItems (l : List Json) (ov : Option DiffAction)
    (h : ∀ x ∈ l, eraseActsN (createNodeFromValue x ov) = eraseActsN (createNodeFromValue x none)) :
    eraseItemsActs (createItems l ov) = eraseItemsActs (createItems l none) := by
  induction l with
  | nil => simp [createItems]
  | cons x xs ih =>
    rw [createItems, createItems, eraseItemsActs, eraseItemsActs, eraseActsD, eraseActsD]
    rw [h x (by simp), ih (fun y hy => h y (by simp [hy]))]

theorem erasePropsActs_createProps (l : List (String × Json)) (ov : Option DiffAction)
    (h : ∀ kv ∈ l,
      eraseActsN (createNodeFromValue kv.2 ov) = eraseActsN (createNodeFromValue kv.2 none)) :
    erasePropsActs (createProps l ov) = erasePropsActs (createProps l none) := by
  induction l with
  | nil => simp [createProps]
  | cons kv rest ih =>
    obtain ⟨k, v⟩ := kv
    have htail := ih (fun y hy => h y (by simp [hy]))
    have hhead : eraseActsN (createNodeFromValue v ov) = eraseActsN (createNodeFromValue v none) :=
      h (k, v) (by simp)
    cases v
    case undef =>
      rw [createProps, createProps]
      exact htail
    all_goals simp only [createProps, erasePropsActs, eraseActsD]
    all_goals rw [hhead, htail]

theorem eraseActsN_createNodeFromValue :
    ∀ (v : Json) (ov : Option DiffAction),
      eraseActsN (createNodeFromValue v ov) = eraseActsN (createNodeFromValue v none) := by
  intro v
  induction v using json_size_ind with
  | hundef => intro ov; simp [createNodeFromValue]
  | hnull => intro ov; simp [createNodeFromValue]
  | hbool b => intro ov; simp [createNodeFromValue]
  | hnum n => intro ov; simp [createNodeFromValue]
  | hstr s => intro ov; simp [createNodeFromValue]
  | harr items hmem =>
    intro ov
    rw [createNodeFromValue, createNodeFromValue, eraseActsN, eraseActsN]
    rw [eraseItemsActs_createItems items ov (fun x hx => hmem x hx ov)]
  | hobj props hmem =>
    intro ov
    rw [createNodeFromValue, createNodeFromValue, eraseActsN, eraseActsN]
    rw [erasePropsActs_createProps props ov (fun kv hkv => hmem kv hkv ov)]

/-- C5: for every JSON value, diffing the value against itself yields a
tree in which every reachable diff carries the Default action, hasChanges
is false on it, and rendering with showUnchangedProperties off produces
zero lines. -/
theorem c5_default_idempotence (v : Json) :
    diffAllDefault (buildDiff v v) = true ∧
    hasChanges (buildDiff v v) = false ∧
    ∀ (opts : LogOptions) (notes : List (String × String)) (key apfx p : String),
      opts.showUnchangedProperties = false →
      getDiffLines (buildDiff v v) opts notes key apfx p = [] := by
  refine ⟨buildDiff_self_allDefault v,
    hasChanges_false_of_allDefault _ (buildDiff_self_allDefault v), ?_⟩
  intro opts notes key apfx p h
  exact getDiffLines_nil_of_unchanged _ _ _ _ _ _ h
    (hasChanges_false_of_allDefault _ (buildDiff_self_allDefault v))

theorem c5_witness :
    diffAllDefault (buildDiff (Json.num 1) (Json.num 1)) = true ∧
    hasChanges (buildDiff (Json.num 1) (Json.num 1)) = false ∧
    getDiffLines (buildDiff (Json.num 1) (Json.num 1))
      ⟨false, false, 0, none, none⟩ [] "" "" "" = [] := by
  refine ⟨(c5_default_idempotence (Json.num 1)).1, (c5_default_idempotence (Json.num 1)).2.1, ?_⟩
  exact (c5_default_idempotence (Json.num 1)).2.2 ⟨false, false, 0, none, none⟩ [] "" "" "" rfl

/-- C1 counterexample: null and an array have different classified types
(null is primitive), yet buildDiff returns an Add diff, not a Replace,
because the nullish branches run before the type comparison. -/
theorem c1_counterexample :
    getValueType Json.null ≠ getValueType (Json.arr [Json.num 1]) ∧
    buildDiff Json.null (Json.arr [Json.num 1]) =
      Diff.change .Add (.array [.change .Add (.primitive (.num 1))]) := by
  constructor
  · decide
  · simp [buildDiff, isNullish, createNodeFromValue, createItems]

/-- C1 (amended): for inputs on which neither side is null or undefined,
differing classified types produce a Replace whose before node is built
from the first value with every descendant tagged Remove and whose after
node is built from the second value with every descendant tagged Add.
The nullish cases of buildDiff run first, so a nullish side produces an
Add, Remove or Default diff instead. -/
theorem c1_type_change_replace (v1 v2 : Json)
    (h1 : isNullish v1 = false) (h2 : isNullish v2 = false)
    (h : getValueType v1 ≠ getValueType v2) :
    buildDiff v1 v2 =
      Diff.replace (createNodeFromValue v1 (some .Remove)) (createNodeFromValue v2 (some .Add)) ∧
    nodeAllTagged .Remove (createNodeFromValue v1 (some .Remove)) = true ∧
    nodeAllTagged .Add (createNodeFromValue v2 (some .Add)) = true := by
  refine ⟨?_, createNodeFromValue_some_allTagged v1 .Remove,
    createNodeFromValue_some_allTagged v2 .Add⟩
  rw [buildDiff.eq_def]
  simp [h1, h2, h]

theorem c1_witness :
    buildDiff (Json.str "x") (Json.arr []) =
      Diff.replace (createNodeFromValue (Json.str "x") (some .Remove))
        (createNodeFromValue (Json.arr []) (some .Add)) ∧
    nodeAllTagged .Remove (createNodeFromValue (Json.str "x") (some .Remove)) = true ∧
    nodeAllTagged .Add (createNodeFromValue (Json.arr []) (some .Add)) = true :=
  c1_type_change_replace (Json.str "x") (Json.arr []) rfl rfl (by decide)

/-- C6 counterexample: at v = null the claim fails: buildDiff null
undefined is a Default diff of the null primitive, not a Remove tree, and
symmetrically for the Add direction. -/
theorem c6_counterexample :
    buildDiff Json.null Json.undef = Diff.change .Default (.primitive .null) ∧
    diffAllTagged .Remove (buildDiff Json.null Json.undef) = false := by
  have h : buildDiff Json.null Json.undef = Diff.change .Default (.primitive .null) := by
    simp [buildDiff, isNullish]
  refine ⟨h, ?_⟩
  rw [h]
  simp [diffAllTagged]

/-- C6 (amended): for every JSON value that is neither null nor undefined,
buildDiff of the value against undefined is a Remove diff of the node
built from the value, buildDiff of undefined against the value is the
mirrored Add diff, the two nodes agree after erasing actions (same shape
and content), and each side is uniformly tagged with its action.  For null
or undefined the nullish branch yields a Default null diff on both sides
instead. -/
theorem c6_add_remove_symmetry (v : Json)
    (h : isNullish v = false) :
    buildDiff v Json.undef = Diff.change .Remove (createNodeFromValue v (some .Remove)) ∧
    buildDiff Json.undef v = Diff.change .Add (createNodeFromValue v (some .Add)) ∧
    eraseActsN (createNodeFromValue v (some .Remove)) =
      eraseActsN (createNodeFromValue v (some .Add)) ∧
    nodeAllTagged .Remove (createNodeFromValue v (some .Remove)) = true ∧
    nodeAllTagged .Add (createNodeFromValue v (some .Add)) = true := by
  refine ⟨?_, ?_, ?_, createNodeFromValue_some_allTagged v .Remove,
    createNodeFromValue_some_allTagged v .Add⟩
  · rw [buildDiff.eq_def]
    simp [h, show isNullish Json.undef = true from rfl]
  · rw [buildDiff.eq_def]
    simp [h, show isNullish Json.undef = true from rfl]
  · rw [eraseActsN_createNodeFromValue v (some .Remove),
      eraseActsN_createNodeFromValue v (some .Add)]

theorem c6_witness :
    buildDiff (Json.num 7) Json.undef =
      Diff.change .Remove (createNodeFromValue (Json.num 7) (some .Remove)) ∧
    buildDiff Json.undef (Json.num 7) =
      Diff.change .Add (createNodeFromValue (Json.num 7) (some .Add)) ∧
    eraseActsN (createNodeFromValue (Json.num 7) (some .Remove)) =
      eraseActsN (createNodeFromValue (Json.num 7) (some .Add)) := by
  have h := c6_add_remove_symmetry (Json.num 7) rfl
  exact ⟨h.1, h.2.1, h.2.2.1⟩

/-- C8 counterexample: an object property explicitly bound to undefined on
both sides is materialized by buildObjectDiff as an explicit Default null
diff entry, not omitted. -/
theorem c8_counterexample :
    buildDiff (Json.obj [("a", Json.undef)]) (Json.obj [("a", Json.undef)]) =
      Diff.change .Default (.object [("a", Diff.change .Default (.primitive .null))]) := by
  simp [buildDiff, buildObjectDiff, buildObjectProps, dedupKeys, keysList, containsKey,
    lookupValD, lookupVal, isNullish, getValueType]

/-- C8 (amended): createNodeFromValue omits undefined-valued properties
entirely when it builds a fresh object node (so uniformly tagged Add and
Remove subtrees never materialize them); buildObjectDiff, by contrast,
materializes an entry for every key present on either side, including
keys whose value is undefined on both sides, which become explicit
Default null entries. -/
theorem c8_undefined_props_omitted (props : List (String × Json)) (ov : Option DiffAction) :
    createProps props ov =
      (props.filter (fun kv => !isUndef kv.2)).map
        (fun kv => (kv.1, Diff.change (ov.getD .Default) (createNodeFromValue kv.2 ov))) := by
  induction props with
  | nil => rw [createProps]; simp
  | cons kv rest ih =>
    obtain ⟨k, v⟩ := kv
    cases v
    case undef =>
      rw [createProps]
      simp [isUndef, ih]
    all_goals rw [createProps]
    all_goals simp [isUndef, ih]

set_option maxRecDepth 4000

theorem reorder_diff_eval :
    buildDiff (.arr [.str "alice", .str "bob", .str "charlie", .str "david"])
        (.arr [.str "charlie", .str "alice", .str "bob", .str "david"]) =
      .change .Default (.array
        [.change .Add (.primitive (.str "charlie")),
         .change .Default (.primitive (.str "alice")),
         .change .Default (.primitive (.str "bob")),
         .change .Remove (.primitive (.str "charlie")),
         .change .Default (.primitive (.str "david"))]) := by
  simp [buildDiff, buildArrayDiff, buildArrayItems, matchArrayElement, deepEq, jsonStringify,
    jsonQuote, escapeChars, headUndef, isNullish, getValueType, isUndef, createNodeFromValue]

theorem reorder_lines_eval :
    getObjectDiff (.arr [.str "alice", .str "bob", .str "charlie", .str "david"])
        (.arr [.str "charlie", .str "alice", .str "bob", .str "david"])
        { showColor := some false, showUnchangedProperties := some true } [] =
      ["+ - \"charlie\"", "  - \"alice\"", "  - \"bob\"", "- - \"charlie\"", "  - \"david\""] := by
  simp [getObjectDiff, buildDiff, buildArrayDiff, buildArrayItems, matchArrayElement, deepEq,
    jsonStringify, jsonQuote, escapeChars, headUndef, isNullish, getValueType, isUndef,
    createNodeFromValue, getDiffLines, renderItems, hasChanges, hasChangesItems,
    formatDiffString, actionIcon, spacesStr, lookupNote, containsSub, joinPath, splitSlash,
    splitSlashAux, normStep, natToDec, natToDecCore, decDigit]

/-- C2 counterexample: on the reorder scenario the render with unchanged
properties shown has exactly three unchanged-marker lines (alice, bob,
david), not four as claimed: charlie appears only as one Add line and one
Remove line. -/
theorem c2_counterexample :
    ((getObjectDiff (.arr [.str "alice", .str "bob", .str "charlie", .str "david"])
        (.arr [.str "charlie", .str "alice", .str "bob", .str "david"])
        { showColor := some false, showUnchangedProperties := some true } []).filter
      (fun l => l.data.take 2 == [' ', ' '])).length = 3 := by
  rw [reorder_lines_eval]
  decide

/-- C2 (amended): on the reorder scenario the items are, in order, Add
charlie, Default alice, Default bob, Remove charlie, Default david; the
render with unchanged properties shown is five lines: three
unchanged-marker lines plus one Add line and one Remove line, and no
Replace pair occurs. -/
theorem c2_array_reorder :
    buildDiff (.arr [.str "alice", .str "bob", .str "charlie", .str "david"])
        (.arr [.str "charlie", .str "alice", .str "bob", .str "david"]) =
      .change .Default (.array
        [.change .Add (.primitive (.str "charlie")),
         .change .Default (.primitive (.str "alice")),
         .change .Default (.primitive (.str "bob")),
         .change .Remove (.primitive (.str "charlie")),
         .change .Default (.primitive (.str "david"))]) ∧
    getObjectDiff (.arr [.str "alice", .str "bob", .str "charlie", .str "david"])
        (.arr [.str "charlie", .str "alice", .str "bob", .str "david"])
        { showColor := some false, showUnchangedProperties := some true } [] =
      ["+ - \"charlie\"", "  - \"alice\"", "  - \"bob\"", "- - \"charlie\"", "  - \"david\""] ∧
    ((getObjectDiff (.arr [.str "alice", .str "bob", .str "charlie", .str "david"])
        (.arr [.str "charlie", .str "alice", .str "bob", .str "david"])
        { showColor := some false, showUnchangedProperties := some true } []).filter
      (fun l => l.data.take 2 == [' ', ' '])).length = 3 ∧
    ((getObjectDiff (.arr [.str "alice", .str "bob", .str "charlie", .str "david"])
        (.arr [.str "charlie", .str "alice", .str "bob", .str "david"])
        { showColor := some false, showUnchangedProperties := some true } []).filter
      (fun l => l.data.take 2 == ['+', ' '])).length = 1 ∧
    ((getObjectDiff (.arr [.str "alice", .str "bob", .str "charlie", .str "david"])
        (.arr [.str "charlie", .str "alice", .str "bob", .str "david"])
        { showColor := some false, showUnchangedProperties := some true } []).filter
      (fun l => l.data.take 2 == ['-', ' '])).length = 1 := by
  refine ⟨reorder_diff_eval, reorder_lines_eval, ?_, ?_, ?_⟩
  all_goals rw [reorder_lines_eval]
  all_goals decide

theorem c7_eval_diff :
    buildDiff (.arr [.obj [("a", .num 1)]]) (.arr [.obj [("b", .num 2)]]) =
      .change .Default (.array
        [.replace (.object [("a", .change .Remove (.primitive (.num 1)))])
          (.object [("b", .change .Add (.primitive (.num 2)))])]) := by
  have hne : ("\x7b" ++ String.intercalate "," ["\"a\":1"] ++ "\x7d") ≠
      ("\x7b" ++ String.intercalate "," ["\"b\":2"] ++ "\x7d") := by decide
  simp [buildDiff, buildArrayDiff, buildArrayItems, matchArrayElement, deepEq, jsonStringify,
    jsonQuote, escapeChars, stringifyProps, intToDec, natToDec, natToDecCore, decDigit,
    headUndef, isNullish, getValueType, isUndef, createNodeFromValue, createProps,
    dedupKeys, keysList, asObj, hne]

/-- C7 counterexample: two array elements that are both objects (the same
container type) replaced as a keyless array item render with an
independent item marker on both the Remove side and the Add side; the
single-marker layout requires a property key in addition to equal node
types. -/
theorem c7_counterexample :
    buildDiff (.arr [.obj [("a", .num 1)]]) (.arr [.obj [("b", .num 2)]]) =
      .change .Default (.array
        [.replace (.object [("a", .change .Remove (.primitive (.num 1)))])
          (.object [("b", .change .Add (.primitive (.num 2)))])]) ∧
    nodeTypeOf (.object [("a", .change .Remove (.primitive (.num 1)))]) =
      nodeTypeOf (.object [("b", .change .Add (.primitive (.num 2)))]) ∧
    getObjectDiff (.arr [.obj [("a", .num 1)]]) (.arr [.obj [("b", .num 2)]])
        { showColor := some false } [] = ["- - a: 1", "+ - b: 2"] := by
  refine ⟨c7_eval_diff, rfl, ?_⟩
  have hne : ("\x7b" ++ String.intercalate "," ["\"a\":1"] ++ "\x7d") ≠
      ("\x7b" ++ String.intercalate "," ["\"b\":2"] ++ "\x7d") := by decide
  simp [getObjectDiff, buildDiff, buildArrayDiff, buildArrayItems, matchArrayElement, deepEq,
    jsonStringify, jsonQuote, escapeChars, stringifyProps, intToDec, natToDec, natToDecCore,
    decDigit, headUndef, isNullish, getValueType, isUndef, createNodeFromValue, createProps,
    dedupKeys, keysList, asObj, getDiffLines, renderItems, renderProps, hasChanges,
    hasChangesItems, hasChangesProps, formatDiffString, actionIcon, spacesStr, lookupNote,
    containsSub, joinPath, splitSlash, splitSlashAux, normStep, nodeTypeOf, hne]
  decide

/-- C7 (amended): when a Replace is rendered inside an array context, the
array marker is emitted only once (on the Remove side, with the Add side
indented under it without a marker) exactly when a property key is present
and the two nodes have the same type; when the key is absent or the types
differ, both sides get independent array markers (the Add side with a
fresh two-character marker at the parent position). -/
theorem c7_replace_marker (b a : DiffNode) (opts : LogOptions)
    (notes : List (String × String)) (key apfx p : String) (hp : apfx ≠ "") :
    (key ≠ "" ∧ nodeTypeOf b = nodeTypeOf a →
      getDiffLines (.replace b a) opts notes key apfx p =
        getDiffLines (.change .Remove b) opts notes key apfx p ++
        getDiffLines (.change .Add a) {opts with indent := opts.indent + apfx.length}
          notes key "" p) ∧
    (key = "" ∨ nodeTypeOf b ≠ nodeTypeOf a →
      getDiffLines (.replace b a) opts notes key apfx p =
        getDiffLines (.change .Remove b) opts notes key apfx p ++
        getDiffLines (.change .Add a) {opts with indent := opts.indent + apfx.length - 2}
          notes key "- " p) := by
  constructor
  · rintro ⟨hk, hty⟩
    rw [getDiffLines.eq_def]
    simp [hasChanges, hp, hk, hty]
  · intro hcase
    rw [getDiffLines.eq_def]
    rcases hcase with hk | hty
    · simp [hasChanges, hp, hk]
    · simp [hasChanges, hp, hty]

theorem c7_witness :
    "- " ≠ "" ∧
    getDiffLines
        (.replace (.object [("x", .change .Remove (.primitive (.num 1)))])
          (.object [("x", .change .Add (.primitive (.num 2)))]))
        ⟨false, true, 0, none, none⟩ [] "k" "- " "" =
      getDiffLines (.change .Remove (.object [("x", .change .Remove (.primitive (.num 1)))]))
        ⟨false, true, 0, none, none⟩ [] "k" "- " "" ++
      getDiffLines (.change .Add (.object [("x", .change .Add (.primitive (.num 2)))]))
        {(⟨false, true, 0, none, none⟩ : LogOptions) with indent :=
          (⟨false, true, 0, none, none⟩ : LogOptions).indent + "- ".length} [] "k" "" "" :=
  ⟨by decide,
    (c7_replace_marker (.object [("x", .change .Remove (.primitive (.num 1)))])
      (.object [("x", .change .Add (.primitive (.num 2)))])
      ⟨false, true, 0, none, none⟩ [] "k" "- " "" (by decide)).1 ⟨by decide, rfl⟩⟩

theorem containsKey_false_iff (l : List (String × Json)) (k : String) :
    containsKey l k = false ↔ ¬ k ∈ keysList l := by
  rw [← containsKey_iff]
  cases h : containsKey l k <;> simp

theorem dedupKeys_of_nodup (l : List String) (h : l.Nodup) : dedupKeys l = l := by
  induction l with
  | nil => rw [dedupKeys]
  | cons k rest ih =>
    rw [dedupKeys]
    have hk : k ∉ rest := (List.nodup_cons.mp h).1
    have hfe : rest.filter (fun x => x ≠ k) = rest := by
      rw [List.filter_eq_self]
      intro x hx
      simp
      exact fun heq => hk (heq ▸ hx)
    rw [hfe, ih (List.nodup_cons.mp h).2]

theorem dedupKeys_append_left (kb : List String) (hb : kb.Nodup) (ka : List String) :
    dedupKeys (kb ++ ka) = kb ++ dedupKeys (ka.filter (fun x => !kb.contains x)) := by
  induction kb generalizing ka with
  | nil => simp
  | cons k kb' ih =>
    have hk : k ∉ kb' := (List.nodup_cons.mp hb).1
    rw [List.cons_append, dedupKeys]
    have hsplit : (kb' ++ ka).filter (fun x => x ≠ k) =
        kb'.filter (fun x => x ≠ k) ++ ka.filter (fun x => x ≠ k) := by
      rw [List.filter_append]
    have hkb : kb'.filter (fun x => x ≠ k) = kb' := by
      rw [List.filter_eq_self]
      intro x hx
      simp
      exact fun heq => hk (heq ▸ hx)
    rw [hsplit, hkb, ih (List.nodup_cons.mp hb).2, List.filter_filter]
    have hpred : List.filter (fun a => !kb'.contains a && decide (a ≠ k)) ka =
        List.filter (fun x => !(k :: kb').contains x) ka := by
      apply List.filter_congr
      intro x hx
      simp only [List.contains_cons, Bool.not_or, decide_not]
      cases hxe : (x == k) <;> cases hc : kb'.contains x <;> simp_all
    rw [hpred]
    rfl

theorem mem_dedupKeys_of_mem : ∀ (l : List String) (k : String), k ∈ l → k ∈ dedupKeys l := by
  have main : ∀ (n : Nat) (l : List String), l.length ≤ n → ∀ k, k ∈ l → k ∈ dedupKeys l := by
    intro n
    induction n with
    | zero =>
      intro l hl k hk
      cases l with
      | nil => simp at hk
      | cons k0 rest => simp at hl
    | succ n ih =>
      intro l hl k hk
      cases l with
      | nil => simp at hk
      | cons k0 rest =>
        rw [dedupKeys]
        by_cases hke : k = k0
        · simp [hke]
        · rcases List.mem_cons.mp hk with h | h
          · exact absurd h hke
          · have hmemf : k ∈ rest.filter (fun x => x ≠ k0) :=
              List.mem_filter.mpr ⟨h, by simp [hke]⟩
            have hlen : (rest.filter (fun x => x ≠ k0)).length ≤ n :=
              le_trans (List.length_filter_le _ _) (by simp at hl; omega)
            exact List.mem_cons.mpr (Or.inr (ih _ hlen k hmemf))
  exact fun l k hk => main l.length l le_rfl k hk

theorem buildObjectProps_keys (bs as : List (String × Json)) :
    ∀ ks, (buildObjectProps bs as ks).map Prod.fst = ks := by
  intro ks
  induction ks with
  | nil => rw [buildObjectProps]; rfl
  | cons key rest ih =>
    rw [buildObjectProps]
    by_cases h1 : containsKey bs key = false
    · simp [h1, ih]
    · by_cases h2 : containsKey as key = false
      · simp [h1, h2, ih]
      · simp [h1, h2, ih]

theorem buildObjectProps_lookup (bs as : List (String × Json)) :
    ∀ (ks : List String) (k : String), k ∈ ks →
      (buildObjectProps bs as ks).lookup k = some
        (if containsKey bs k = false then
          Diff.change .Add (createNodeFromValue (lookupValD as k) (some .Add))
        else if containsKey as k = false then
          Diff.change .Remove (createNodeFromValue (lookupValD bs k) (some .Remove))
        else buildDiff (lookupValD bs k) (lookupValD as k)) := by
  intro ks
  induction ks with
  | nil => intro k hk; simp at hk
  | cons key rest ih =>
    intro k hk
    rw [buildObjectProps]
    by_cases hkey : key = k
    · subst hkey
      by_cases h1 : containsKey bs key = false
      · rw [if_pos h1, if_pos h1]
        simp [List.lookup]
      · rw [if_neg h1, if_neg h1]
        by_cases h2 : containsKey as key = false
        · rw [if_pos h2, if_pos h2]
          simp [List.lookup]
        · rw [if_neg h2, if_neg h2]
          simp [List.lookup]
    · have hmem : k ∈ rest := by
        rcases List.mem_cons.mp hk with h | h
        · exact absurd h.symm hkey
        · exact h
      have hne : (k == key) = false := beq_eq_false_iff_ne.mpr (fun h => hkey h.symm)
      by_cases h1 : containsKey bs key = false
      · rw [if_pos h1]
        simp [List.lookup, hne, ih k hmem]
      · rw [if_neg h1]
        by_cases h2 : containsKey as key = false
        · rw [if_pos h2]
          simp [List.lookup, hne, ih k hmem]
        · rw [if_neg h2]
          simp [List.lookup, hne, ih k hmem]

/-- C4: diffing two objects (well-formed: unique keys each, the JS object
invariant) yields a Default-tagged object diff whose entry keys are the
union of the key sets, before keys first in discovery order and after-only
keys appended; a key missing in before maps to an Add entry whose subtree
is uniformly tagged Add, a key missing in after maps to a Remove entry
uniformly tagged Remove, and a key present on both sides maps to the
recursive diff of the two values. -/
theorem c4_object_union (bs as : List (String × Json))
    (hb : (keysList bs).Nodup) (ha : (keysList as).Nodup) :
    buildDiff (.obj bs) (.obj as) =
      Diff.change .Default (.object
        (buildObjectProps bs as (dedupKeys (keysList bs ++ keysList as)))) ∧
    (buildObjectProps bs as (dedupKeys (keysList bs ++ keysList as))).map Prod.fst =
      keysList bs ++ (keysList as).filter (fun k => !(keysList bs).contains k) ∧
    (∀ k, containsKey bs k = false → containsKey as k = true →
      (buildObjectProps bs as (dedupKeys (keysList bs ++ keysList as))).lookup k =
        some (Diff.change .Add (createNodeFromValue (lookupValD as k) (some .Add))) ∧
      diffAllTagged .Add
        (Diff.change .Add (createNodeFromValue (lookupValD as k) (some .Add))) = true) ∧
    (∀ k, containsKey as k = false → containsKey bs k = true →
      (buildObjectProps bs as (dedupKeys (keysList bs ++ keysList as))).lookup k =
        some (Diff.change .Remove (createNodeFromValue (lookupValD bs k) (some .Remove))) ∧
      diffAllTagged .Remove
        (Diff.change .Remove (createNodeFromValue (lookupValD bs k) (some .Remove))) = true) ∧
    (∀ k, containsKey bs k = true → containsKey as k = true →
      (buildObjectProps bs as (dedupKeys (keysList bs ++ keysList as))).lookup k =
        some (buildDiff (lookupValD bs k) (lookupValD as k))) := by
  refine ⟨?_, ?_, ?_, ?_, ?_⟩
  · rw [buildDiff.eq_def]
    simp [isNullish, getValueType, buildObjectDiff]
  · rw [buildObjectProps_keys]
    rw [dedupKeys_append_left (keysList bs) hb (keysList as)]
    rw [dedupKeys_of_nodup _ (ha.filter _)]
  · intro k h1 h2
    have hmem : k ∈ dedupKeys (keysList bs ++ keysList as) :=
      mem_dedupKeys_of_mem _ _ (List.mem_append.mpr (Or.inr ((containsKey_iff as k).mp h2)))
    rw [buildObjectProps_lookup bs as _ k hmem]
    constructor
    · simp [h1]
    · rw [diffAllTagged]
      simp [createNodeFromValue_some_allTagged]
  · intro k h1 h2
    have hmem : k ∈ dedupKeys (keysList bs ++ keysList as) :=
      mem_dedupKeys_of_mem _ _ (List.mem_append.mpr (Or.inl ((containsKey_iff bs k).mp h2)))
    rw [buildObjectProps_lookup bs as _ k hmem]
    constructor
    · simp [h1, show ¬ containsKey bs k = false by simp [h2]]
    · rw [diffAllTagged]
      simp [createNodeFromValue_some_allTagged]
  · intro k h1 h2
    have hmem : k ∈ dedupKeys (keysList bs ++ keysList as) :=
      mem_dedupKeys_of_mem _ _ (List.mem_append.mpr (Or.inl ((containsKey_iff bs k).mp h1)))
    rw [buildObjectProps_lookup bs as _ k hmem]
    simp [show ¬ containsKey bs k = false by simp [h1],
      show ¬ containsKey as k = false by simp [h2]]

theorem c4_witness :
    buildDiff (.obj [("a", Json.num 1), ("b", Json.num 2)])
        (.obj [("b", Json.num 3), ("c", Json.num 4)]) =
      Diff.change .Default (.object
        (buildObjectProps [("a", Json.num 1), ("b", Json.num 2)]
          [("b", Json.num 3), ("c", Json.num 4)]
          (dedupKeys (keysList [("a", Json.num 1), ("b", Json.num 2)] ++
            keysList [("b", Json.num 3), ("c", Json.num 4)])))) ∧
    (buildObjectProps [("a", Json.num 1), ("b", Json.num 2)]
        [("b", Json.num 3), ("c", Json.num 4)]
        (dedupKeys (keysList [("a", Json.num 1), ("b", Json.num 2)] ++
          keysList [("b", Json.num 3), ("c", Json.num 4)]))).map Prod.fst = ["a", "b", "c"] := by
  have h := c4_object_union [("a", Json.num 1), ("b", Json.num 2)]
    [("b", Json.num 3), ("c", Json.num 4)] (by decide) (by decide)
  refine ⟨h.1, ?_⟩
  rw [h.2.1]
  decide

theorem natToDecCore_spec : ∀ (n fuel : Nat), n < fuel → ∀ acc,
    natToDecCore fuel n acc = natToDecCore (n + 1) n [] ++ acc := by
  intro n
  induction n using Nat.strong_induction_on with
  | _ n ih =>
    intro fuel hfuel acc
    by_cases h10 : n < 10
    · cases fuel with
      | zero => omega
      | succ f =>
        rw [natToDecCore, natToDecCore]
        simp [h10]
    · cases fuel with
      | zero => omega
      | succ f =>
        rw [natToDecCore]
        simp only [h10, if_false]
        have hdiv : n / 10 < n := Nat.div_lt_self (by omega) (by omega)
        rw [ih (n / 10) hdiv f (by omega) (decDigit (n % 10) :: acc)]
        conv_rhs =>
          rw [natToDecCore]
        simp only [h10, if_false]
        rw [ih (n / 10) hdiv n (by omega) [decDigit (n % 10)]]
        simp

theorem natToDec_eq (n : Nat) :
    (natToDec n).data = if n < 10 then [decDigit n]
      else (natToDec (n / 10)).data ++ [decDigit (n % 10)] := by
  by_cases h10 : n < 10
  · rw [natToDec]
    rw [natToDecCore]
    simp [h10]
  · rw [natToDec, natToDecCore]
    simp only [h10, if_false]
    have hdiv : n / 10 < n := Nat.div_lt_self (by omega) (by omega)
    rw [natToDecCore_spec (n / 10) n (by omega) [decDigit (n % 10)]]
    rw [natToDec]

theorem decDigit_toNat (m : Nat) (h : m < 10) : (decDigit m).toNat = 48 + m := by
  interval_cases m <;> decide

theorem natToDec_digits : ∀ (n : Nat) (c : Char), c ∈ (natToDec n).data →
    48 ≤ c.toNat ∧ c.toNat ≤ 57 := by
  intro n
  induction n using Nat.strong_induction_on with
  | _ n ih =>
    intro c hc
    rw [natToDec_eq] at hc
    by_cases h10 : n < 10
    · simp [h10] at hc
      rw [hc, decDigit_toNat n h10]
      omega
    · simp only [h10, if_false, List.mem_append, List.mem_singleton] at hc
      rcases hc with hc | hc
      · exact ih (n / 10) (Nat.div_lt_self (by omega) (by omega)) c hc
      · rw [hc, decDigit_toNat (n % 10) (by omega)]
        omega

theorem natToDec_head : ∀ n : Nat, ∃ (c : Char) (rest : List Char),
    (natToDec n).data = c :: rest ∧ 48 ≤ c.toNat ∧ c.toNat ≤ 57 := by
  intro n
  induction n using Nat.strong_induction_on with
  | _ n ih =>
    rw [natToDec_eq]
    by_cases h10 : n < 10
    · refine ⟨decDigit n, [], by simp [h10], ?_⟩
      rw [decDigit_toNat n h10]
      omega
    · obtain ⟨c, rest, heq, hlo, hhi⟩ := ih (n / 10) (Nat.div_lt_self (by omega) (by omega))
      refine ⟨c, rest ++ [decDigit (n % 10)], ?_, hlo, hhi⟩
      simp [h10, heq]

theorem intToDec_head : ∀ i : Int, ∃ (c : Char) (rest : List Char),
    (intToDec i).data = c :: rest ∧ (c = '-' ∨ (48 ≤ c.toNat ∧ c.toNat ≤ 57)) := by
  intro i
  rw [intToDec]
  by_cases hneg : i < 0
  · obtain ⟨c, rest, heq, _, _⟩ := natToDec_head i.natAbs
    refine ⟨'-', (natToDec i.natAbs).data, ?_, Or.inl rfl⟩
    simp [hneg, String.data_append]
  · obtain ⟨c, rest, heq, hlo, hhi⟩ := natToDec_head i.toNat
    exact ⟨c, rest, by simp [hneg, heq], Or.inr ⟨hlo, hhi⟩⟩

theorem decDigit_val (m : Nat) (h : m < 10) : (decDigit m).toNat - 48 = m := by
  rw [decDigit_toNat m h]
  omega

theorem digitsVal_append_digit (l : List Char) (d : Char) :
    digitsVal (l ++ [d]) = 10 * digitsVal l + (d.toNat - 48) := by
  rw [digitsVal, digitsVal, List.foldl_append]
  rfl

theorem natToDec_val : ∀ n : Nat, digitsVal (natToDec n).data = n := by
  intro n
  induction n using Nat.strong_induction_on with
  | _ n ih =>
    rw [natToDec_eq]
    by_cases h10 : n < 10
    · simp only [h10, if_true]
      show digitsVal [decDigit n] = n
      rw [digitsVal]
      simp [decDigit_val n h10]
    · simp only [h10, if_false]
      rw [digitsVal_append_digit, ih (n / 10) (Nat.div_lt_self (by omega) (by omega)),
        decDigit_val (n % 10) (by omega)]
      omega

theorem natToDec_inj (a b : Nat) (h : natToDec a = natToDec b) : a = b := by
  have hd : (natToDec a).data = (natToDec b).data := by rw [h]
  have := congrArg digitsVal hd
  rw [natToDec_val, natToDec_val] at this
  exact this

theorem intToDec_inj (a b : Int) (h : intToDec a = intToDec b) : a = b := by
  have hd : (intToDec a).data = (intToDec b).data := congrArg String.data h
  rw [intToDec, intToDec] at hd
  by_cases ha : a < 0 <;> by_cases hb : b < 0
  · simp only [ha, hb, if_true] at hd
    rw [String.data_append, String.data_append] at hd
    simp at hd
    have := congrArg digitsVal hd
    rw [natToDec_val, natToDec_val] at this
    omega
  · simp only [ha, hb, if_true, if_false] at hd
    rw [String.data_append] at hd
    obtain ⟨c, rest, heq, hlo, hhi⟩ := natToDec_head b.toNat
    rw [heq] at hd
    have hh : '-' = c := by
      have : ("-" : String).data = ['-'] := rfl
      rw [this] at hd
      exact (List.cons.injEq _ _ _ _ ▸ hd).1
    rw [← hh] at hlo
    simp at hlo
  · simp only [ha, hb, if_true, if_false] at hd
    rw [String.data_append] at hd
    obtain ⟨c, rest, heq, hlo, hhi⟩ := natToDec_head a.toNat
    rw [heq] at hd
    have hh : c = '-' := by
      have hm : ("-" : String).data = ['-'] := rfl
      rw [hm] at hd
      exact (List.cons.injEq _ _ _ _ ▸ hd).1
    rw [hh] at hlo
    simp at hlo
  · simp only [ha, hb, if_false] at hd
    have := congrArg digitsVal hd
    rw [natToDec_val, natToDec_val] at this
    omega

theorem escapeChars_inj : ∀ l1 l2 : List Char, escapeChars l1 = escapeChars l2 → l1 = l2 := by
  intro l1
  induction l1 with
  | nil =>
    intro l2 h
    cases l2 with
    | nil => rfl
    | cons c cs =>
      rw [escapeChars, escapeChars] at h
      split_ifs at h <;> simp at h
  | cons c1 cs1 ih =>
    intro l2 h
    cases l2 with
    | nil =>
      rw [escapeChars, escapeChars] at h
      split_ifs at h <;> simp at h
    | cons c2 cs2 =>
      rw [escapeChars, escapeChars] at h
      split_ifs at h <;> simp_all
      all_goals
        first
        | exact ih _ (by first | assumption | rfl)
        | (obtain ⟨h1, h2⟩ := h
           first
           | exact absurd h1.symm (by assumption)
           | exact absurd h1 (by assumption))

theorem jsonQuote_data (s : String) :
    (jsonQuote s).data = '"' :: (escapeChars s.data ++ ['"']) := rfl

theorem jsonQuote_inj (s1 s2 : String) (h : jsonQuote s1 = jsonQuote s2) : s1 = s2 := by
  have hd := congrArg String.data h
  rw [jsonQuote_data, jsonQuote_data] at hd
  simp only [List.cons.injEq, true_and] at hd
  have he := List.append_cancel_right hd
  have := escapeChars_inj _ _ he
  cases s1
  cases s2
  simp_all

theorem intToDec_ne_fixed (i : Int) (c : Char) (l : List Char)
    (hc : c ≠ '-') (hd : c.toNat < 48 ∨ 57 < c.toNat) :
    (intToDec i).data ≠ c :: l := by
  intro h
  obtain ⟨c0, rest, heq, hprop⟩ := intToDec_head i
  rw [heq] at h
  have h1 : c0 = c := by
    have := List.cons.injEq c0 rest c l ▸ h
    exact this.1
  subst h1
  rcases hprop with h2 | h2
  · exact hc h2
  · omega

theorem stringify_arr_data (l : List Json) : ∃ t,
    jsonStringify (.arr l) = some t ∧ ∃ rest, t.data = '[' :: rest := by
  rw [jsonStringify]
  refine ⟨_, rfl, ?_⟩
  rw [String.data_append, String.data_append]
  exact ⟨_, rfl⟩

theorem stringify_obj_data (p : List (String × Json)) : ∃ t,
    jsonStringify (.obj p) = some t ∧ ∃ rest, t.data = '\x7b' :: rest := by
  rw [jsonStringify]
  refine ⟨_, rfl, ?_⟩
  rw [String.data_append, String.data_append]
  exact ⟨_, rfl⟩

theorem stringify_prim_shape (v : Json) (hv : getValueType v = .primitive) :
    jsonStringify v = none ∨
    ∃ t c rest, jsonStringify v = some t ∧ t.data = c :: rest ∧ c ≠ '[' ∧ c ≠ '\x7b' := by
  cases v <;> simp [getValueType] at hv
  case undef => exact Or.inl rfl
  case null =>
    exact Or.inr ⟨"null", 'n', ['u', 'l', 'l'], rfl, rfl, by decide, by decide⟩
  case bool b =>
    cases b
    · exact Or.inr ⟨"false", 'f', ['a', 'l', 's', 'e'], rfl, rfl, by decide, by decide⟩
    · exact Or.inr ⟨"true", 't', ['r', 'u', 'e'], rfl, rfl, by decide, by decide⟩
  case num n =>
    obtain ⟨c, rest, heq, hprop⟩ := intToDec_head n
    refine Or.inr ⟨intToDec n, c, rest, by rw [jsonStringify], heq, ?_, ?_⟩
    · rcases hprop with h | h
      · rw [h]; decide
      · intro hc
        rw [hc] at h
        revert h
        decide
    · rcases hprop with h | h
      · rw [h]; decide
      · intro hc
        rw [hc] at h
        revert h
        decide
  case str s =>
    exact Or.inr ⟨jsonQuote s, '"', escapeChars s.data ++ ['"'], by rw [jsonStringify],
      jsonQuote_data s, by decide, by decide⟩

theorem deepEq_type (x y : Json) (h : deepEq x y = true) :
    getValueType x = getValueType y := by
  simp only [deepEq, decide_eq_true_eq] at h
  cases hx : getValueType x <;> cases hy : getValueType y <;> try rfl
  case primitive.array =>
    exfalso
    cases y <;> simp [getValueType] at hy
    rename_i l
    obtain ⟨t, ht, rest, hdata⟩ := stringify_arr_data l
    rcases stringify_prim_shape x hx with hn | ⟨t2, c, rest2, ht2, hdata2, hne, _⟩
    · rw [hn, ht] at h
      exact Option.noConfusion h
    · rw [ht2, ht] at h
      have : t2 = t := Option.some.injEq _ _ ▸ h
      rw [this, hdata] at hdata2
      have : c = '[' := ((List.cons.injEq _ _ _ _).mp hdata2.symm).1.symm.symm
      exact hne this
  case primitive.object =>
    exfalso
    cases y <;> simp [getValueType] at hy
    rename_i p
    obtain ⟨t, ht, rest, hdata⟩ := stringify_obj_data p
    rcases stringify_prim_shape x hx with hn | ⟨t2, c, rest2, ht2, hdata2, _, hne⟩
    · rw [hn, ht] at h
      exact Option.noConfusion h
    · rw [ht2, ht] at h
      have : t2 = t := Option.some.injEq _ _ ▸ h
      rw [this, hdata] at hdata2
      have : c = '\x7b' := ((List.cons.injEq _ _ _ _).mp hdata2.symm).1.symm.symm
      exact hne this
  case array.primitive =>
    exfalso
    cases x <;> simp [getValueType] at hx
    rename_i l
    obtain ⟨t, ht, rest, hdata⟩ := stringify_arr_data l
    rcases stringify_prim_shape y hy with hn | ⟨t2, c, rest2, ht2, hdata2, hne, _⟩
    · rw [hn, ht] at h
      exact Option.noConfusion h
    · rw [ht2, ht] at h
      have : t = t2 := Option.some.injEq _ _ ▸ h
      rw [← this, hdata] at hdata2
      have : c = '[' := ((List.cons.injEq _ _ _ _).mp hdata2.symm).1.symm.symm
      exact hne this
  case array.object =>
    exfalso
    cases x <;> simp [getValueType] at hx
    cases y <;> simp [getValueType] at hy
    rename_i l p
    obtain ⟨t, ht, rest, hdata⟩ := stringify_arr_data l
    obtain ⟨t2, ht2, rest2, hdata2⟩ := stringify_obj_data p
    rw [ht, ht2] at h
    have : t = t2 := Option.some.injEq _ _ ▸ h
    rw [← this, hdata] at hdata2
    have : '[' = '\x7b' := ((List.cons.injEq _ _ _ _).mp hdata2.symm).1.symm
    revert this
    decide
  case object.primitive =>
    exfalso
    cases x <;> simp [getValueType] at hx
    rename_i p
    obtain ⟨t, ht, rest, hdata⟩ := stringify_obj_data p
    rcases stringify_prim_shape y hy with hn | ⟨t2, c, rest2, ht2, hdata2, _, hne⟩
    · rw [hn, ht] at h
      exact Option.noConfusion h
    · rw [ht2, ht] at h
      have : t = t2 := Option.some.injEq _ _ ▸ h
      rw [← this, hdata] at hdata2
      have : c = '\x7b' := ((List.cons.injEq _ _ _ _).mp hdata2.symm).1.symm.symm
      exact hne this
  case object.array =>
    exfalso
    cases x <;> simp [getValueType] at hx
    cases y <;> simp [getValueType] at hy
    rename_i p l
    obtain ⟨t, ht, rest, hdata⟩ := stringify_obj_data p
    obtain ⟨t2, ht2, rest2, hdata2⟩ := stringify_arr_data l
    rw [ht, ht2] at h
    have : t = t2 := Option.some.injEq _ _ ▸ h
    rw [← this, hdata] at hdata2
    have : '\x7b' = '[' := ((List.cons.injEq _ _ _ _).mp hdata2.symm).1.symm
    revert this
    decide

theorem deepEq_prim_eq (x y : Json) (hx : getValueType x = .primitive)
    (hy : getValueType y = .primitive) (h : deepEq x y = true) : x = y := by
  simp only [deepEq, decide_eq_true_eq] at h
  cases x <;> simp [getValueType] at hx <;> cases y <;> simp [getValueType] at hy <;>
    simp [jsonStringify] at h
  case null.null => rfl
  case null.bool b =>
    exfalso
    cases b <;> revert h <;> decide
  case null.num n =>
    exfalso
    exact intToDec_ne_fixed n 'n' ['u', 'l', 'l'] (by decide) (by decide)
      (congrArg String.data h).symm
  case undef.undef => rfl
  case null.str s =>
    exfalso
    have hthis := congrArg String.data h
    rw [jsonQuote_data] at hthis
    have hd : ("null" : String).data = ['n', 'u', 'l', 'l'] := rfl
    rw [hd] at hthis
    exact absurd ((List.cons.injEq _ _ _ _).mp hthis).1 (by decide)
  case bool.null b =>
    exfalso
    cases b <;> revert h <;> decide
  case bool.bool b1 b2 =>
    cases b1 <;> cases b2 <;> first | rfl | (exfalso; revert h; decide)
  case bool.num b n =>
    exfalso
    cases b
    · exact intToDec_ne_fixed n 'f' ['a', 'l', 's', 'e'] (by decide) (by decide)
        (congrArg String.data h).symm
    · exact intToDec_ne_fixed n 't' ['r', 'u', 'e'] (by decide) (by decide)
        (congrArg String.data h).symm
  case bool.str b s =>
    exfalso
    have hthis := congrArg String.data h
    rw [jsonQuote_data] at hthis
    cases b
    · have hd : (cond false "true" "false").data = ['f', 'a', 'l', 's', 'e'] := rfl
      rw [hd] at hthis
      exact absurd ((List.cons.injEq _ _ _ _).mp hthis).1 (by decide)
    · have hd : (cond true "true" "false").data = ['t', 'r', 'u', 'e'] := rfl
      rw [hd] at hthis
      exact absurd ((List.cons.injEq _ _ _ _).mp hthis).1 (by decide)
  case num.null n =>
    exfalso
    exact intToDec_ne_fixed n 'n' ['u', 'l', 'l'] (by decide) (by decide)
      (congrArg String.data h)
  case num.bool n b =>
    exfalso
    cases b
    · exact intToDec_ne_fixed n 'f' ['a', 'l', 's', 'e'] (by decide) (by decide)
        (congrArg String.data h)
    · exact intToDec_ne_fixed n 't' ['r', 'u', 'e'] (by decide) (by decide)
        (congrArg String.data h)
  case num.num n1 n2 =>
    rw [intToDec_inj n1 n2 h]
  case num.str n s =>
    exfalso
    have hthis := congrArg String.data h
    rw [jsonQuote_data] at hthis
    exact intToDec_ne_fixed n '"' (escapeChars s.data ++ ['"']) (by decide) (by decide) hthis
  case str.null s =>
    exfalso
    have hthis := congrArg String.data h
    rw [jsonQuote_data] at hthis
    have hd : ("null" : String).data = ['n', 'u', 'l', 'l'] := rfl
    rw [hd] at hthis
    exact absurd ((List.cons.injEq _ _ _ _).mp hthis).1 (by decide)
  case str.bool s b =>
    exfalso
    have hthis := congrArg String.data h
    rw [jsonQuote_data] at hthis
    cases b
    · have hd : (cond false "true" "false").data = ['f', 'a', 'l', 's', 'e'] := rfl
      rw [hd] at hthis
      exact absurd ((List.cons.injEq _ _ _ _).mp hthis).1 (by decide)
    · have hd : (cond true "true" "false").data = ['t', 'r', 'u', 'e'] := rfl
      rw [hd] at hthis
      exact absurd ((List.cons.injEq _ _ _ _).mp hthis).1 (by decide)
  case str.num s n =>
    exfalso
    have hthis := congrArg String.data h
    rw [jsonQuote_data] at hthis
    exact intToDec_ne_fixed n '"' (escapeChars s.data ++ ['"']) (by decide) (by decide) hthis.symm
  case str.str s1 s2 =>
    rw [jsonQuote_inj s1 s2 h]

theorem dedupKeys_nodup (l : List String) : (dedupKeys l).Nodup := by
  have main : ∀ (n : Nat) (l : List String), l.length ≤ n → (dedupKeys l).Nodup := by
    intro n
    induction n with
    | zero =>
      intro l hl
      cases l with
      | nil => rw [dedupKeys]; exact List.nodup_nil
      | cons k rest => simp at hl
    | succ n ih =>
      intro l hl
      cases l with
      | nil => rw [dedupKeys]; exact List.nodup_nil
      | cons k rest =>
        rw [dedupKeys]
        refine List.nodup_cons.mpr ⟨?_, ?_⟩
        · intro hmem
          have hmem2 := mem_of_mem_dedupKeys _ _ hmem
          simp at hmem2
        · refine ih _ ?_
          simp only [List.length_cons] at hl
          exact le_trans (List.length_filter_le _ _) (by omega)
  exact main l.length l le_rfl

theorem mem_dedupKeys (l : List String) (k : String) : k ∈ dedupKeys l ↔ k ∈ l :=
  ⟨mem_of_mem_dedupKeys l k, mem_dedupKeys_of_mem l k⟩

theorem dedupKeys_toFinset (l : List String) : (dedupKeys l).toFinset = l.toFinset := by
  ext x
  simp [List.mem_toFinset, mem_dedupKeys]

theorem halfRatio (m n : Nat) (hn : 0 < n) :
    ((1 : ℚ) / 2 ≤ (m : ℚ) / (n : ℚ)) ↔ n ≤ 2 * m := by
  rw [div_le_div_iff (by norm_num) (by exact_mod_cast hn)]
  constructor
  · intro h
    have h2 : (n : ℚ) ≤ 2 * m := by linarith
    exact_mod_cast h2
  · intro h
    have h2 : (n : ℚ) ≤ 2 * m := by exact_mod_cast h
    linarith

theorem matchCount_eq_zip : ∀ (bl al : List Json), matchCount bl al =
    ((bl.zip al).filter (fun p => matchArrayElement p.1 p.2)).length := by
  intro bl
  induction bl with
  | nil => intro al; cases al <;> simp [matchCount]
  | cons x xs ih =>
    intro al
    cases al with
    | nil => simp [matchCount]
    | cons y ys =>
      have hxs := ih ys
      by_cases h : matchArrayElement x y = true <;>
        simp [matchCount, List.filter_cons, h, hxs] <;> omega

theorem matchArrayElement_obj_iff (bp aps : List (String × Json)) :
    matchArrayElement (Json.obj bp) (Json.obj aps) = true ↔
      (deepEq (Json.obj bp) (Json.obj aps) = true ∨ specObjMatch bp aps) := by
  by_cases hde : deepEq (Json.obj bp) (Json.obj aps) = true
  · simp [matchArrayElement, hde]
  · rw [Bool.not_eq_true] at hde
    have h1 : ¬(deepEq (Json.obj bp) (Json.obj aps) = true) := by simp [hde]
    have h2 : ¬(getValueType (Json.obj bp) ≠ getValueType (Json.obj aps)) := by
      simp [getValueType]
    have hred : matchArrayElement (Json.obj bp) (Json.obj aps) =
        (if (dedupKeys (dedupKeys (keysList bp) ++ dedupKeys (keysList aps))).length = 0
         then true
         else decide (2 * ((dedupKeys (dedupKeys (keysList bp) ++ dedupKeys (keysList aps))).filter
            (fun k => (dedupKeys (keysList bp)).contains k &&
              (dedupKeys (keysList aps)).contains k)).length ≥
           (dedupKeys (dedupKeys (keysList bp) ++ dedupKeys (keysList aps))).length)) := by
      rw [matchArrayElement, if_neg h1, if_neg h2]
    have hunion : (dedupKeys (dedupKeys (keysList bp) ++ dedupKeys (keysList aps))).length
        = ((keysList bp).toFinset ∪ (keysList aps).toFinset).card := by
      rw [← List.toFinset_card_of_nodup (dedupKeys_nodup _)]
      congr 1
      rw [dedupKeys_toFinset, List.toFinset_append, dedupKeys_toFinset, dedupKeys_toFinset]
    have hts : ((dedupKeys (dedupKeys (keysList bp) ++ dedupKeys (keysList aps))).filter
          (fun k => (dedupKeys (keysList bp)).contains k &&
            (dedupKeys (keysList aps)).contains k)).toFinset
        = (keysList bp).toFinset ∩ (keysList aps).toFinset := by
      ext x
      simp [List.mem_toFinset, List.mem_filter, mem_dedupKeys]
      tauto
    have hinter : ((dedupKeys (dedupKeys (keysList bp) ++ dedupKeys (keysList aps))).filter
          (fun k => (dedupKeys (keysList bp)).contains k &&
            (dedupKeys (keysList aps)).contains k)).length
        = ((keysList bp).toFinset ∩ (keysList aps).toFinset).card := by
      rw [← List.toFinset_card_of_nodup ((dedupKeys_nodup _).filter _), hts]
    rw [hred, hunion, hinter]
    simp only [hde, Bool.false_eq_true, false_or]
    by_cases hz : ((keysList bp).toFinset ∪ (keysList aps).toFinset).card = 0
    · rw [if_pos hz]
      simp [specObjMatch, Finset.card_eq_zero.mp hz]
    · rw [if_neg hz]
      have hpos : 0 < ((keysList bp).toFinset ∪ (keysList aps).toFinset).card :=
        Nat.pos_of_ne_zero hz
      simp only [decide_eq_true_eq, specObjMatch, ge_iff_le]
      constructor
      · intro hge
        right
        exact (halfRatio _ _ hpos).mpr hge
      · rintro (hemp | hr)
        · exact absurd (by rw [hemp]; simp) hz
        · exact (halfRatio _ _ hpos).mp hr

theorem matchArrayElement_arr_iff (bl al : List Json) :
    matchArrayElement (Json.arr bl) (Json.arr al) = true ↔
      (deepEq (Json.arr bl) (Json.arr al) = true ∨ specArrMatch bl al) := by
  by_cases hde : deepEq (Json.arr bl) (Json.arr al) = true
  · simp [matchArrayElement, hde]
  · rw [Bool.not_eq_true] at hde
    have h1 : ¬(deepEq (Json.arr bl) (Json.arr al) = true) := by simp [hde]
    have h2 : ¬(getValueType (Json.arr bl) ≠ getValueType (Json.arr al)) := by
      simp [getValueType]
    have hred : matchArrayElement (Json.arr bl) (Json.arr al) =
        (if bl.length = 0 ∧ al.length = 0 then true
         else decide (2 * matchCount bl al ≥ max bl.length al.length)) := by
      rw [matchArrayElement, if_neg h1, if_neg h2]
    rw [hred]
    simp only [hde, Bool.false_eq_true, false_or]
    by_cases hz : bl.length = 0 ∧ al.length = 0
    · rw [if_pos hz]
      simp [specArrMatch, List.length_eq_zero.mp hz.1, List.length_eq_zero.mp hz.2]
    · rw [if_neg hz]
      have hpos : 0 < max bl.length al.length := by
        rcases not_and_or.mp hz with h | h
        · exact lt_max_iff.mpr (Or.inl (Nat.pos_of_ne_zero h))
        · exact lt_max_iff.mpr (Or.inr (Nat.pos_of_ne_zero h))
      simp only [decide_eq_true_eq, specArrMatch, ge_iff_le]
      rw [matchCount_eq_zip]
      constructor
      · intro hge
        right
        exact (halfRatio _ _ hpos).mpr hge
      · rintro (⟨hb, ha⟩ | hr)
        · exact absurd ⟨by simp [hb], by simp [ha]⟩ hz
        · exact (halfRatio _ _ hpos).mp hr

theorem matchArrayElement_cross (x y : Json) (h : getValueType x ≠ getValueType y) :
    matchArrayElement x y = false := by
  have hd : deepEq x y = false := by
    cases hde : deepEq x y
    · rfl
    · exact absurd (deepEq_type x y hde) h
  cases x <;> cases y <;> first
    | exact absurd rfl h
    | simp_all [matchArrayElement, getValueType]

theorem matchArrayElement_prim (x y : Json) (hx : getValueType x = JsType.primitive)
    (hy : getValueType y = JsType.primitive) (hne : x ≠ y) :
    matchArrayElement x y = false := by
  have hd : deepEq x y = false := by
    cases hde : deepEq x y
    · rfl
    · exact absurd (deepEq_prim_eq x y hx hy hde) hne
  cases x <;> cases y <;> simp_all [matchArrayElement, getValueType]

theorem matchArrayElement_of_deepEq (x y : Json) (h : deepEq x y = true) :
    matchArrayElement x y = true := by
  cases x <;> cases y <;> simp [matchArrayElement, h]

theorem matchArrayElement_true_elim (x y : Json) (h : matchArrayElement x y = true)
    (hde : deepEq x y = false) :
    (∃ bp aps, x = Json.obj bp ∧ y = Json.obj aps) ∨
    (∃ bl al, x = Json.arr bl ∧ y = Json.arr al) := by
  cases x <;> cases y
  case obj.obj => exact Or.inl ⟨_, _, rfl, rfl⟩
  case arr.arr => exact Or.inr ⟨_, _, rfl, rfl⟩
  all_goals simp_all [matchArrayElement, getValueType]

/-- C3: matchArrayElement holds exactly when the two values are deep-equal
(equal serializations), or both are objects whose key sets have empty
union or share at least half of that union, or both are arrays that are
both empty or whose count of index-aligned recursively matching pairs is
at least half of the longer length; moreover values of different
classified types never match, and distinct primitives never match. -/
theorem c3_matching_rule (x y : Json) :
    (matchArrayElement x y = true ↔
      (deepEq x y = true ∨
        (∃ bp aps, x = Json.obj bp ∧ y = Json.obj aps ∧ specObjMatch bp aps) ∨
        (∃ bl al, x = Json.arr bl ∧ y = Json.arr al ∧ specArrMatch bl al))) ∧
    (getValueType x ≠ getValueType y → matchArrayElement x y = false) ∧
    (getValueType x = JsType.primitive → getValueType y = JsType.primitive →
      x ≠ y → matchArrayElement x y = false) := by
  refine ⟨⟨?_, ?_⟩, fun hne => matchArrayElement_cross x y hne,
    fun hx hy hne => matchArrayElement_prim x y hx hy hne⟩
  · intro h
    by_cases hde : deepEq x y = true
    · exact Or.inl hde
    · rw [Bool.not_eq_true] at hde
      rcases matchArrayElement_true_elim x y h hde with ⟨bp, aps, rfl, rfl⟩ | ⟨bl, al, rfl, rfl⟩
      · rcases (matchArrayElement_obj_iff bp aps).mp h with h1 | h1
        · exact absurd h1 (by simp [hde])
        · exact Or.inr (Or.inl ⟨bp, aps, rfl, rfl, h1⟩)
      · rcases (matchArrayElement_arr_iff bl al).mp h with h1 | h1
        · exact absurd h1 (by simp [hde])
        · exact Or.inr (Or.inr ⟨bl, al, rfl, rfl, h1⟩)
  · rintro (hde | ⟨bp, aps, rfl, rfl, hs⟩ | ⟨bl, al, rfl, rfl, hs⟩)
    · exact matchArrayElement_of_deepEq x y hde
    · exact (matchArrayElement_obj_iff bp aps).mpr (Or.inr hs)
    · exact (matchArrayElement_arr_iff bl al).mpr (Or.inr hs)

/-- Witness for C3 at concrete inputs: distinct primitive numbers never
match, and an object never matches an array. -/
theorem c3_witness :
    matchArrayElement (Json.num 1) (Json.num 2) = false ∧
    matchArrayElement (Json.obj [("a", Json.num 1)]) (Json.arr [Json.num 1]) = false := by
  constructor
  · exact (c3_matching_rule (Json.num 1) (Json.num 2)).2.2 rfl rfl
      (by intro hcon; injection hcon with h12; exact absurd h12 (by decide))
  · exact (c3_matching_rule (Json.obj [("a", Json.num 1)])
      (Json.arr [Json.num 1])).2.1 (by simp [getValueType])

theorem getValueType_arr_shape (v : Json) (h : getValueType v = JsType.array) :
    ∃ l, v = Json.arr l := by
  cases v <;> first | exact ⟨_, rfl⟩ | simp [getValueType] at h

theorem getValueType_obj_shape (v : Json) (h : getValueType v = JsType.object) :
    ∃ p, v = Json.obj p := by
  cases v <;> first | exact ⟨_, rfl⟩ | simp [getValueType] at h

theorem createItemsE_ok_of (items : List Json)
    (ih : ∀ x ∈ items, ∀ ov, createNodeFromValueE x ov = Except.ok (createNodeFromValue x ov)) :
    ∀ ov, createItemsE items ov = Except.ok (createItems items ov) := by
  induction items with
  | nil => intro ov; simp [createItemsE, createItems]
  | cons x xs ihl =>
    intro ov
    have h1 := ih x (by simp) ov
    have h2 := ihl (fun y hy ov2 => ih y (by simp [hy]) ov2) ov
    simp [createItemsE, createItems, h1, h2]

theorem createPropsE_ok_of (props : List (String × Json))
    (ih : ∀ kv ∈ props, ∀ ov,
      createNodeFromValueE kv.2 ov = Except.ok (createNodeFromValue kv.2 ov)) :
    ∀ ov, createPropsE props ov = Except.ok (createProps props ov) := by
  induction props with
  | nil => intro ov; simp [createPropsE, createProps]
  | cons kv rest ihl =>
    obtain ⟨k, v⟩ := kv
    intro ov
    have h1 := ih ⟨k, v⟩ (by simp) ov
    have h2 := ihl (fun y hy ov2 => ih y (by simp [hy]) ov2) ov
    cases v <;> simp_all [createPropsE, createProps]

theorem createNodeFromValueE_ok : ∀ (v : Json) (ov : Option DiffAction),
    createNodeFromValueE v ov = Except.ok (createNodeFromValue v ov) := by
  intro v
  refine json_size_ind
    (fun v => ∀ ov, createNodeFromValueE v ov = Except.ok (createNodeFromValue v ov))
    ?_ ?_ ?_ ?_ ?_ ?_ ?_ v
  · intro ov; simp [createNodeFromValueE, createNodeFromValue, getValueType]
  · intro ov; simp [createNodeFromValueE, createNodeFromValue, getValueType]
  · intro b ov; simp [createNodeFromValueE, createNodeFromValue, getValueType]
  · intro n ov; simp [createNodeFromValueE, createNodeFromValue, getValueType]
  · intro s ov; simp [createNodeFromValueE, createNodeFromValue, getValueType]
  · intro items hih ov
    simp [createNodeFromValueE, createNodeFromValue, getValueType, asArr,
      createItemsE_ok_of items hih ov]
  · intro props hih ov
    simp [createNodeFromValueE, createNodeFromValue, getValueType, asObj,
      createPropsE_ok_of props hih ov]

theorem buildDiffE_ok (b a : Json) : buildDiffE b a = Except.ok (buildDiff b a) := by
  refine buildDiff.induct
    (fun b a => buildDiffE b a = Except.ok (buildDiff b a))
    (fun bo ao => buildObjectDiffE bo ao = Except.ok (buildObjectDiff bo ao))
    (fun bo ao ks => buildObjectPropsE bo ao ks = Except.ok (buildObjectProps bo ao ks))
    (fun bl al => buildArrayDiffE bl al = Except.ok (buildArrayDiff bl al))
    (fun bl al => buildArrayItemsE bl al = Except.ok (buildArrayItems bl al))
    ?_ ?_ ?_ ?_ ?_ ?_ ?_ ?_ ?_ ?_ ?_ ?_ ?_ ?_ ?_ ?_ ?_ b a
  · intro b a h
    rw [buildDiffE.eq_def, if_pos h, buildDiff.eq_def, if_pos h]
  · intro b a h1 h2
    rw [buildDiffE.eq_def, if_neg h1, if_pos h2, createNodeFromValueE_ok,
      buildDiff.eq_def, if_neg h1, if_pos h2]
  · intro b a h1 h2 h3
    rw [buildDiffE.eq_def, if_neg h1, if_neg h2, if_pos h3, createNodeFromValueE_ok,
      buildDiff.eq_def, if_neg h1, if_neg h2, if_pos h3]
  · intro b a h1 h2 h3 hne
    rw [buildDiffE.eq_def, if_neg h1, if_neg h2, if_neg h3, dif_pos hne,
      createNodeFromValueE_ok, createNodeFromValueE_ok,
      buildDiff.eq_def, if_neg h1, if_neg h2, if_neg h3, if_pos hne]
  · intro bl al hnb hna hnboth hteq ih4
    rw [buildDiffE.eq_def, if_neg hnboth, if_neg hnb, if_neg hna, dif_neg hteq,
      if_neg (show ¬getValueType (Json.arr bl) = JsType.primitive by simp [getValueType]),
      dif_pos (show getValueType (Json.arr bl) = JsType.array from rfl),
      buildDiff.eq_def, if_neg hnboth, if_neg hnb, if_neg hna, if_neg hteq]
    simpa [asArr] using ih4
  · intro bo ao hnb hna hnboth hteq ih2
    rw [buildDiffE.eq_def, if_neg hnboth, if_neg hnb, if_neg hna, dif_neg hteq,
      if_neg (show ¬getValueType (Json.obj bo) = JsType.primitive by simp [getValueType]),
      dif_neg (show ¬getValueType (Json.obj bo) = JsType.array by simp [getValueType]),
      dif_pos (show getValueType (Json.obj bo) = JsType.object from rfl),
      buildDiff.eq_def, if_neg hnboth, if_neg hnb, if_neg hna, if_neg hteq]
    simpa [asObj] using ih2
  · intro b a hnotarr hnotobj hpeq hnb hna hnboth hteq
    have hteq2 : getValueType b = getValueType a := not_not.mp hteq
    have hprim : getValueType b = JsType.primitive := by
      cases htb : getValueType b with
      | primitive => rfl
      | array =>
        obtain ⟨bl2, rfl⟩ := getValueType_arr_shape b htb
        obtain ⟨al2, rfl⟩ := getValueType_arr_shape a (hteq2.symm.trans htb)
        exact (hnotarr bl2 al2 rfl rfl).elim
      | object =>
        obtain ⟨bp2, rfl⟩ := getValueType_obj_shape b htb
        obtain ⟨ap2, rfl⟩ := getValueType_obj_shape a (hteq2.symm.trans htb)
        exact (hnotobj bp2 ap2 rfl rfl).elim
    have haprim : getValueType a = JsType.primitive := hteq2.symm.trans hprim
    rw [buildDiffE.eq_def, if_neg hnboth, if_neg hnb, if_neg hna, dif_neg hteq,
      if_pos hprim, if_pos hpeq,
      buildDiff.eq_def, if_neg hnboth, if_neg hnb, if_neg hna, if_neg hteq]
    cases b <;> simp [getValueType] at hprim <;> cases a <;>
      simp [getValueType] at haprim <;> simp [hpeq]
  · intro b a hnotarr hnotobj hpeq hnb hna hnboth hteq
    have hteq2 : getValueType b = getValueType a := not_not.mp hteq
    have hprim : getValueType b = JsType.primitive := by
      cases htb : getValueType b with
      | primitive => rfl
      | array =>
        obtain ⟨bl2, rfl⟩ := getValueType_arr_shape b htb
        obtain ⟨al2, rfl⟩ := getValueType_arr_shape a (hteq2.symm.trans htb)
        exact (hnotarr bl2 al2 rfl rfl).elim
      | object =>
        obtain ⟨bp2, rfl⟩ := getValueType_obj_shape b htb
        obtain ⟨ap2, rfl⟩ := getValueType_obj_shape a (hteq2.symm.trans htb)
        exact (hnotobj bp2 ap2 rfl rfl).elim
    have haprim : getValueType a = JsType.primitive := hteq2.symm.trans hprim
    rw [buildDiffE.eq_def, if_neg hnboth, if_neg hnb, if_neg hna, dif_neg hteq,
      if_pos hprim, if_neg hpeq,
      buildDiff.eq_def, if_neg hnboth, if_neg hnb, if_neg hna, if_neg hteq]
    cases b <;> simp [getValueType] at hprim <;> cases a <;>
      simp [getValueType] at haprim <;> simp [hpeq]
  · intro bo ao ih3
    rw [buildObjectDiffE.eq_def, ih3, buildObjectDiff.eq_def]
  · intro bo ao
    simp [buildObjectPropsE, buildObjectProps]
  · intro bo ao k rest ih1 ihrest
    cases hc1 : containsKey bo k with
    | false =>
      simp [buildObjectPropsE, buildObjectProps, hc1, createNodeFromValueE_ok, ihrest]
    | true =>
      cases hc2 : containsKey ao k with
      | false =>
        simp [buildObjectPropsE, buildObjectProps, hc1, hc2, createNodeFromValueE_ok, ihrest]
      | true =>
        simp [buildObjectPropsE, buildObjectProps, hc1, hc2, ih1, ihrest]
  · intro bl al ih5
    rw [buildArrayDiffE.eq_def, ih5, buildArrayDiff.eq_def]
  · intro bl al hend
    rw [buildArrayItemsE.eq_def, dif_pos hend, buildArrayItems.eq_def, dif_pos hend]
  · intro bl al hnend hm iho iha ih5
    rw [buildArrayItemsE.eq_def, dif_neg hnend, dif_pos hm,
      buildArrayItems.eq_def, dif_neg hnend, dif_pos hm]
    by_cases hde : deepEq (headUndef bl) (headUndef al) = true
    · rw [dif_pos hde, dif_pos hde, createNodeFromValueE_ok, ih5]
    · rw [dif_neg hde, dif_neg hde]
      by_cases ho : getValueType (headUndef bl) = JsType.object
      · rw [dif_pos ho, dif_pos ho, iho hde ho, ih5]
      · rw [dif_neg ho, dif_neg ho]
        by_cases ha : getValueType (headUndef bl) = JsType.array
        · rw [dif_pos ha, dif_pos ha, iha hde ho ha, ih5]
        · rw [dif_neg ha, dif_neg ha, ih5]
  · intro bl al hnend hnm hadd ih5
    rw [buildArrayItemsE.eq_def, dif_neg hnend, dif_neg hnm, dif_pos hadd,
      buildArrayItems.eq_def, dif_neg hnend, dif_neg hnm, dif_pos hadd,
      createNodeFromValueE_ok, ih5]
  · intro bl al hnend hnm hnadd hrem ih5
    rw [buildArrayItemsE.eq_def, dif_neg hnend, dif_neg hnm, dif_neg hnadd, dif_pos hrem,
      buildArrayItems.eq_def, dif_neg hnend, dif_neg hnm, dif_neg hnadd, dif_pos hrem,
      createNodeFromValueE_ok, ih5]
  · intro bl al hnend hnm hnadd hnrem ih5
    rw [buildArrayItemsE.eq_def, dif_neg hnend, dif_neg hnm, dif_neg hnadd, dif_neg hnrem,
      buildArrayItems.eq_def, dif_neg hnend, dif_neg hnm, dif_neg hnadd, dif_neg hnrem,
      createNodeFromValueE_ok, createNodeFromValueE_ok, ih5]

theorem getObjectDiffE_ok (b a : Json) (opts : ObjectDiffOptions)
    (notes : List (String × String)) :
    getObjectDiffE b a opts notes = Except.ok (getObjectDiff b a opts notes) := by
  simp [getObjectDiffE, getObjectDiff, buildDiffE_ok]

/-- C9: getValueType totally classifies every JSON-compatible value as
primitive, array or object, and the error-throwing mirrors of
createNodeFromValue, buildDiff and getObjectDiff (which keep the source
throw branches as error values) always return ok with exactly the value of
the total functions: the unrecognized-object-type and unhandled-type
branches are unreachable. -/
theorem c9_total_no_throw :
    (∀ v : Json, getValueType v = JsType.primitive ∨ getValueType v = JsType.array ∨
      getValueType v = JsType.object) ∧
    (∀ v ov, createNodeFromValueE v ov = Except.ok (createNodeFromValue v ov)) ∧
    (∀ b a, buildDiffE b a = Except.ok (buildDiff b a)) ∧
    (∀ b a opts notes, getObjectDiffE b a opts notes =
      Except.ok (getObjectDiff b a opts notes)) := by
  refine ⟨?_, createNodeFromValueE_ok, buildDiffE_ok, getObjectDiffE_ok⟩
  intro v
  cases v <;> simp [getValueType]

theorem interc_cons2 (s a b : String) (rest : List String) :
    String.intercalate s (a :: b :: rest) = a ++ s ++ String.intercalate s (b :: rest) := by
  show String.intercalate.go a s (b :: rest) = _
  induction rest generalizing a b with
  | nil => rfl
  | cons c cs ih =>
    show String.intercalate.go (a ++ s ++ b) s (c :: cs) = _
    rw [ih]
    show _ = a ++ s ++ String.intercalate.go b s (c :: cs)
    rw [ih]
    simp [String.append_assoc]

theorem stringMk_data (s : String) : String.mk s.data = s := rfl

theorem string_data_inj (s t : String) (h : s.data = t.data) : s = t :=
  congrArg String.mk h

theorem plainSeg_spec (s : String) (h : plainSeg s = true) :
    s ≠ "" ∧ s ≠ "." ∧ s ≠ ".." ∧ s.data.contains '/' = false := by
  simp [plainSeg] at h
  refine ⟨h.1.1.1, h.1.1.2, h.1.2, ?_⟩
  simpa using h.2

theorem splitSlashAux_ne_nil (l : List Char) : ∀ acc, splitSlashAux l acc ≠ [] := by
  induction l with
  | nil => intro acc; simp [splitSlashAux]
  | cons c cs ih =>
    intro acc h
    rw [splitSlashAux] at h
    by_cases hc : c = '/'
    · rw [if_pos hc] at h; exact List.noConfusion h
    · rw [if_neg hc] at h; exact ih _ h

theorem splitSlashAux_slash (l1 : List Char) : ∀ (acc l2 : List Char),
    splitSlashAux (l1 ++ '/' :: l2) acc = splitSlashAux l1 acc ++ splitSlashAux l2 [] := by
  induction l1 with
  | nil => intro acc l2; simp [splitSlashAux]
  | cons c cs ih =>
    intro acc l2
    by_cases hc : c = '/'
    · simp [splitSlashAux, hc, ih]
    · simp [splitSlashAux, hc, ih]

theorem splitSlashAux_noslash (l : List Char) : ∀ acc : List Char, l.contains '/' = false →
    splitSlashAux l acc = [String.mk (acc.reverse ++ l)] := by
  induction l with
  | nil => intro acc h; simp [splitSlashAux]
  | cons c cs ih =>
    intro acc h
    simp only [List.contains_cons, Bool.or_eq_false_iff] at h
    have hc : ¬(c = '/') := by
      intro hcc
      rw [hcc] at h
      simp at h
    rw [splitSlashAux, if_neg hc, ih _ h.2]
    simp

theorem splitSlash_plainseg (k : String) (h : plainSeg k = true) : splitSlash k = [k] := by
  rw [splitSlash, splitSlashAux_noslash _ _ (plainSeg_spec k h).2.2.2]
  simp

theorem splitSlash_append_seg (p k : String) (h : plainSeg k = true) :
    splitSlash (p ++ "/" ++ k) = splitSlash p ++ [k] := by
  have hd : (p ++ "/" ++ k).data = p.data ++ '/' :: k.data := by
    simp [String.data_append]
  rw [splitSlash, hd, splitSlashAux_slash]
  rw [splitSlashAux_noslash _ _ (plainSeg_spec k h).2.2.2]
  simp [splitSlash]

theorem foldl_normStep_plain (segs : List String) : ∀ stack : List String,
    (∀ s ∈ segs, plainSeg s = true) → segs.foldl normStep stack = segs.reverse ++ stack := by
  induction segs with
  | nil => intro stack h; simp
  | cons s rest ih =>
    intro stack h
    obtain ⟨h1, h2, h3, h4⟩ := plainSeg_spec s (h s (by simp))
    have hstep : normStep stack s = s :: stack := by
      rw [normStep.eq_def, if_neg (by simp [h1, h2]), if_neg h3]
    rw [List.foldl_cons, hstep, ih _ (fun t ht => h t (by simp [ht]))]
    simp

theorem intercalate_splitSlash (p : String) :
    String.intercalate "/" (splitSlash p) = p := by
  rw [splitSlash]
  have main : ∀ (l acc : List Char),
      String.intercalate "/" (splitSlashAux l acc) = String.mk (acc.reverse ++ l) := by
    intro l
    induction l with
    | nil => intro acc; simp only [splitSlashAux, List.append_nil]; rfl
    | cons c cs ih =>
      intro acc
      by_cases hc : c = '/'
      · rw [splitSlashAux, if_pos hc]
        cases hsplit : splitSlashAux cs [] with
        | nil => exact absurd hsplit (splitSlashAux_ne_nil _ _)
        | cons b rest =>
          rw [interc_cons2, ← hsplit, ih []]
          subst hc
          apply string_data_inj
          simp [String.data_append]
      · rw [splitSlashAux, if_neg hc, ih (c :: acc)]
        simp
  exact (main p.data []).trans (by simp)

theorem intercalate_pair (s a b : String) : String.intercalate s [a, b] = a ++ s ++ b := rfl

theorem intercalate_single (s a : String) : String.intercalate s [a] = a := rfl

theorem intercalate_append_single (s k : String) : ∀ (xs : List String), xs ≠ [] →
    String.intercalate s (xs ++ [k]) = String.intercalate s xs ++ s ++ k := by
  intro xs
  induction xs with
  | nil => exact fun h => absurd rfl h
  | cons a rest ih =>
    intro _
    cases rest with
    | nil => rfl
    | cons b bs =>
      simp only [List.cons_append]
      rw [interc_cons2, interc_cons2]
      have ih2 := ih (by simp)
      simp only [List.cons_append] at ih2
      rw [ih2]
      simp [String.append_assoc]

theorem slash_append_ne (p k : String) : p ++ "/" ++ k ≠ "" := by
  intro hcon
  have hd : (p ++ "/" ++ k).data = [] := by rw [hcon]
  simp [String.data_append] at hd

theorem joinPath_empty (k : String) (h : plainSeg k = true) : joinPath "" k = k := by
  obtain ⟨h1, h2, h3, h4⟩ := plainSeg_spec k h
  have hfold := foldl_normStep_plain [k] []
    (by intro s hs; simp at hs; subst hs; exact h)
  simp [joinPath, h1, splitSlash_plainseg k h, hfold, intercalate_single]

theorem joinPath_plain (p k : String) (hp : plainPath p = true) (h : plainSeg k = true) :
    joinPath p k = p ++ "/" ++ k := by
  have hp2 : p ≠ "" ∧ ∀ s ∈ splitSlash p, plainSeg s = true := by
    simpa [plainPath, List.all_eq_true] using hp
  obtain ⟨h1, h2, h3, h4⟩ := plainSeg_spec k h
  have hsegs : ∀ s ∈ splitSlash p ++ [k], plainSeg s = true := by
    intro s hs
    rcases List.mem_append.mp hs with hs | hs
    · exact hp2.2 s hs
    · simp at hs; subst hs; exact h
  have hfold := foldl_normStep_plain (splitSlash p ++ [k]) [] hsegs
  have hsplit := splitSlash_append_seg p k h
  have hne : splitSlash p ≠ [] := by rw [splitSlash]; exact splitSlashAux_ne_nil _ _
  have hparts : ([p, k].filter (fun s => s ≠ "")) = [p, k] := by
    simp [hp2.1, h1]
  rw [joinPath]
  simp only [hparts, intercalate_pair]
  rw [if_neg (slash_append_ne p k), hsplit, hfold]
  simp only [List.append_nil, List.reverse_reverse]
  rw [intercalate_append_single _ _ _ hne, intercalate_splitSlash]
  rw [if_neg (slash_append_ne p k)]

theorem plainPath_slashJoin (p k : String) (hp : p = "" ∨ plainPath p = true)
    (h : plainSeg k = true) : plainPath (slashJoin p k) = true := by
  obtain ⟨h1, h2, h3, h4⟩ := plainSeg_spec k h
  rcases hp with rfl | hp
  · simp [slashJoin, plainPath, splitSlash_plainseg k h, h, h1]
  · have hp2 : p ≠ "" ∧ ∀ s ∈ splitSlash p, plainSeg s = true := by
      simpa [plainPath, List.all_eq_true] using hp
    rw [slashJoin, if_neg hp2.1]
    simp only [plainPath, Bool.and_eq_true, List.all_eq_true]
    refine ⟨by simpa using slash_append_ne p k, ?_⟩
    rw [splitSlash_append_seg p k h]
    intro s hs
    rcases List.mem_append.mp hs with hs | hs
    · exact hp2.2 s hs
    · simp at hs; subst hs; exact h

theorem joinPath_eq_slashJoin (p k : String) (hp : p = "" ∨ plainPath p = true)
    (h : plainSeg k = true) : joinPath p k = slashJoin p k := by
  rcases hp with rfl | hp
  · rw [joinPath_empty k h, slashJoin, if_pos rfl]
  · have hp1 : p ≠ "" := by
      have := hp; simp [plainPath] at this; exact this.1
    rw [joinPath_plain p k hp h, slashJoin, if_neg hp1]

theorem plainSeg_natToDec (n : Nat) : plainSeg (natToDec n) = true := by
  have hdig := natToDec_digits n
  have h1 : natToDec n ≠ "" := by
    obtain ⟨c, rest, hdata, _, _⟩ := natToDec_head n
    intro hcon
    rw [hcon] at hdata
    simp at hdata
  have h2 : natToDec n ≠ "." := by
    intro hcon
    have hm : '.' ∈ (natToDec n).data := by rw [hcon]; decide
    have hb := hdig '.' hm
    revert hb
    decide
  have h3 : natToDec n ≠ ".." := by
    intro hcon
    have hm : '.' ∈ (natToDec n).data := by rw [hcon]; decide
    have hb := hdig '.' hm
    revert hb
    decide
  have h4 : '/' ∉ (natToDec n).data := by
    intro hm
    have hb := hdig '/' hm
    revert hb
    decide
  simp [plainSeg, h1, h2, h3, h4]

theorem getDiffLines_replace_eq (bn an : DiffNode) (o : LogOptions)
    (n : List (String × String)) (k ap p : String)
    (h : ¬(!o.showUnchangedProperties && !hasChanges (Diff.replace bn an)) = true) :
    getDiffLines (Diff.replace bn an) o n k ap p =
      getDiffLines (Diff.change DiffAction.Remove bn) o n k ap p ++
      getDiffLines (Diff.change DiffAction.Add an)
        {o with indent := (if ap ≠ "" then
            if k ≠ "" ∧ nodeTypeOf bn = nodeTypeOf an then ((o.indent + ap.length : Nat), ("" : String))
            else (o.indent + ap.length - 2, "- ")
          else (o.indent, ap)).1} n k
        (if ap ≠ "" then
            if k ≠ "" ∧ nodeTypeOf bn = nodeTypeOf an then ((o.indent + ap.length : Nat), ("" : String))
            else (o.indent + ap.length - 2, "- ")
          else (o.indent, ap)).2 p := by
  rw [getDiffLines.eq_def, if_neg h]

theorem getDiffLinesSpec_replace_eq (bn an : DiffNode) (o : LogOptions)
    (n : List (String × String)) (k ap p : String)
    (h : ¬(!o.showUnchangedProperties && !hasChanges (Diff.replace bn an)) = true) :
    getDiffLinesSpec (Diff.replace bn an) o n k ap p =
      getDiffLinesSpec (Diff.change DiffAction.Remove bn) o n k ap p ++
      getDiffLinesSpec (Diff.change DiffAction.Add an)
        {o with indent := (if ap ≠ "" then
            if k ≠ "" ∧ nodeTypeOf bn = nodeTypeOf an then ((o.indent + ap.length : Nat), ("" : String))
            else (o.indent + ap.length - 2, "- ")
          else (o.indent, ap)).1} n k
        (if ap ≠ "" then
            if k ≠ "" ∧ nodeTypeOf bn = nodeTypeOf an then ((o.indent + ap.length : Nat), ("" : String))
            else (o.indent + ap.length - 2, "- ")
          else (o.indent, ap)).2 p := by
  rw [getDiffLinesSpec.eq_def, if_neg h]

theorem getDiffLines_agree : ∀ (d : Diff) (o : LogOptions) (n : List (String × String))
    (k ap p : String), diffKeysPlain d = true → (p = "" ∨ plainPath p = true) →
    getDiffLines d o n k ap p = getDiffLinesSpec d o n k ap p := by
  intro d o n k ap p
  refine getDiffLines.induct
    (fun d o n k ap p => diffKeysPlain d = true → (p = "" ∨ plainPath p = true) →
      getDiffLines d o n k ap p = getDiffLinesSpec d o n k ap p)
    (fun items o n ind ppfx path i => itemsKeysPlain items = true →
      (path = "" ∨ plainPath path = true) →
      renderItems items o n ind ppfx path i = renderItemsSpec items o n ind ppfx path i)
    (fun props o n ind ppfx path => propsKeysPlain props = true →
      (path = "" ∨ plainPath path = true) →
      renderProps props o n ind ppfx path = renderPropsSpec props o n ind ppfx path)
    ?_ ?_ ?_ ?_ ?_ ?_ ?_ ?_ ?_ ?_ ?_ ?_ ?_ d o n k ap p
  · intro d o n k ap p h hk hp
    rw [getDiffLines.eq_def, getDiffLinesSpec.eq_def, if_pos h, if_pos h]
  · intro o n k ap p bn an h ih1 ih2 hk hp
    have hkb : nodeKeysPlain bn = true ∧ nodeKeysPlain an = true := by
      simpa [diffKeysPlain] using hk
    have e1 := ih1 (by simp [diffKeysPlain, hkb.1]) hp
    have e2 := ih2
    simp only [dite_eq_ite] at e2
    rw [getDiffLines_replace_eq bn an o n k ap p h,
      getDiffLinesSpec_replace_eq bn an o n k ap p h, e1]
    by_cases ha : ap ≠ ""
    · by_cases hkt : k ≠ "" ∧ nodeTypeOf bn = nodeTypeOf an
      · rw [if_pos ha, if_pos hkt]
        rw [if_pos ha, if_pos hkt] at e2
        rw [e2 (by simp [diffKeysPlain, hkb.2]) hp]
      · rw [if_pos ha, if_neg hkt]
        rw [if_pos ha, if_neg hkt] at e2
        rw [e2 (by simp [diffKeysPlain, hkb.2]) hp]
    · rw [if_neg ha]
      rw [if_neg ha] at e2
      rw [e2 (by simp [diffKeysPlain, hkb.2]) hp]
  · intro o n k ap p act v h hk hp
    rw [getDiffLines.eq_def, getDiffLinesSpec.eq_def, if_neg h]
  · intro o n k ap p act a hempty h hk hp
    have h2 : ¬(o.showUnchangedProperties = false ∧
        hasChanges (Diff.change act (DiffNode.object a)) = false) := by simpa using h
    rw [getDiffLines.eq_def, getDiffLinesSpec.eq_def, if_neg h]
    simp [hempty, h2]
  · intro o n k ap p act a hnempty hkey h ih3 hk hp
    have h2 : ¬(o.showUnchangedProperties = false ∧
        hasChanges (Diff.change act (DiffNode.object a)) = false) := by simpa using h
    have hkp : propsKeysPlain a = true := by
      simpa [diffKeysPlain, nodeKeysPlain] using hk
    have e3 := ih3 hkp hp
    rw [getDiffLines.eq_def, getDiffLinesSpec.eq_def, if_neg h]
    simp [hnempty, hkey, e3, h2]
  · intro o n k ap p act a hnempty hnkey h ih3 hk hp
    have h2 : ¬(o.showUnchangedProperties = false ∧
        hasChanges (Diff.change act (DiffNode.object a)) = false) := by simpa using h
    have hkp : propsKeysPlain a = true := by
      simpa [diffKeysPlain, nodeKeysPlain] using hk
    have e3 := ih3 hkp hp
    have hkq : k = "" := not_not.mp hnkey
    rw [getDiffLines.eq_def, getDiffLinesSpec.eq_def, if_neg h]
    simp [hnempty, hkq, e3, h2]
  · intro o n k ap p act a hempty h hk hp
    have h2 : ¬(o.showUnchangedProperties = false ∧
        hasChanges (Diff.change act (DiffNode.array a)) = false) := by simpa using h
    rw [getDiffLines.eq_def, getDiffLinesSpec.eq_def, if_neg h]
    simp [hempty, h2]
  · intro o n k ap p act a hnempty hkey h ih2 hk hp
    have h2 : ¬(o.showUnchangedProperties = false ∧
        hasChanges (Diff.change act (DiffNode.array a)) = false) := by simpa using h
    have hki : itemsKeysPlain a = true := by
      simpa [diffKeysPlain, nodeKeysPlain] using hk
    have e2 := ih2 hki hp
    rw [getDiffLines.eq_def, getDiffLinesSpec.eq_def, if_neg h]
    simp [hnempty, hkey, e2, h2]
  · intro o n k ap p act a hnempty hnkey h ih2 hk hp
    have h2 : ¬(o.showUnchangedProperties = false ∧
        hasChanges (Diff.change act (DiffNode.array a)) = false) := by simpa using h
    have hki : itemsKeysPlain a = true := by
      simpa [diffKeysPlain, nodeKeysPlain] using hk
    have e2 := ih2 hki hp
    have hkq : k = "" := not_not.mp hnkey
    rw [getDiffLines.eq_def, getDiffLinesSpec.eq_def, if_neg h]
    simp [hnempty, hkq, e2, h2]
  · intro o n ind ppfx path i hk hp
    simp [renderItems, renderItemsSpec]
  · intro d rest o n ii ppfx cp i ih1 ih2 hk hp
    have hks : diffKeysPlain d = true ∧ itemsKeysPlain rest = true := by
      simpa [itemsKeysPlain] using hk
    have hj : joinPath cp (natToDec (i + 1)) = slashJoin cp (natToDec (i + 1)) :=
      joinPath_eq_slashJoin _ _ hp (plainSeg_natToDec _)
    have hpp : plainPath (slashJoin cp (natToDec (i + 1))) = true :=
      plainPath_slashJoin _ _ hp (plainSeg_natToDec _)
    rw [hj] at ih1
    have e1 := ih1 hks.1 (Or.inr hpp)
    have e2 := ih2 hks.2 hp
    simp only [renderItems, renderItemsSpec, hj, e1, e2]
  · intro o n ind ppfx path hk hp
    simp [renderProps, renderPropsSpec]
  · intro pk pd rest o n pind ppfx cp ih1 ih2 hk hp
    have hks : (plainSeg pk = true ∧ diffKeysPlain pd = true) ∧ propsKeysPlain rest = true := by
      simpa [propsKeysPlain] using hk
    have hj : joinPath cp pk = slashJoin cp pk :=
      joinPath_eq_slashJoin _ _ hp hks.1.1
    have hpp : plainPath (slashJoin cp pk) = true :=
      plainPath_slashJoin _ _ hp hks.1.1
    rw [hj] at ih1
    have e1 := ih1 hks.1.2 (Or.inr hpp)
    have e2 := ih2 hks.2 hp
    simp only [renderProps, renderPropsSpec, hj, e1, e2]

theorem intercalate_nil (s : String) : String.intercalate s [] = "" := rfl

/-- C10 counterexample: the renderer builds note paths with the node:path
join, which normalizes dot segments, so with an object key "." the note
keyed "a" is looked up at the normalized path "a" and attached, while the
slash-joined path of that property is "./a" and the claim-side renderer
attaches nothing. -/
theorem c10_counterexample :
    getObjectDiff (Json.obj [(".", Json.obj [("a", Json.num 1)])])
        (Json.obj [(".", Json.obj [("a", Json.num 2)])])
        { showColor := some false } [("a", "NOTE")] =
      ["  .:", "-   a: 1 # NOTE", "+   a: 2 # NOTE"] ∧
    getObjectDiffSpec (Json.obj [(".", Json.obj [("a", Json.num 1)])])
        (Json.obj [(".", Json.obj [("a", Json.num 2)])])
        { showColor := some false } [("a", "NOTE")] =
      ["  .:", "-   a: 1", "+   a: 2"] := by
  constructor <;>
    simp [getObjectDiff, getObjectDiffSpec, buildDiff, buildObjectDiff, buildObjectProps,
      keysList, dedupKeys, containsKey, lookupValD, lookupVal, isNullish, getValueType,
      primStrictEq, createNodeFromValue, hasChanges, hasChangesProps, getDiffLines,
      getDiffLinesSpec, renderProps, renderPropsSpec, formatDiffString, actionIcon, spacesStr,
      lookupNote, containsSub, joinPath, slashJoin, splitSlash, splitSlashAux, normStep,
      jsonStringify, intToDec, natToDec, natToDecCore, decDigit, nodeTypeOf,
      intercalate_nil, intercalate_single, intercalate_pair] <;> decide

/-- C10 (amended): note lookup paths are built with the node:path join,
which coincides with plain slash-joining exactly on plain segments: for a
plain path p and plain segment k the join is p, slash, k (and at the empty
root path it is k alone); one-based array index strings are always plain
segments; and on every diff whose object keys are all plain segments the
renderer agrees, line for line, with the claim-side renderer that extends
paths by plain slash-joining and appends a note exactly when the note key
equals the slash-joined path, from any root path that is empty or plain,
in particular through getObjectDiff. -/
theorem c10_plain_path_notes :
    (∀ k, plainSeg k = true → joinPath "" k = k) ∧
    (∀ p k, plainPath p = true → plainSeg k = true → joinPath p k = p ++ "/" ++ k) ∧
    (∀ n : Nat, plainSeg (natToDec (n + 1)) = true) ∧
    (∀ (d : Diff) (o : LogOptions) (notes : List (String × String)) (k ap p : String),
      diffKeysPlain d = true → (p = "" ∨ plainPath p = true) →
      getDiffLines d o notes k ap p = getDiffLinesSpec d o notes k ap p) ∧
    (∀ (b a : Json) (opts : ObjectDiffOptions) (notes : List (String × String)),
      diffKeysPlain (buildDiff b a) = true →
      getObjectDiff b a opts notes = getObjectDiffSpec b a opts notes) := by
  refine ⟨joinPath_empty, joinPath_plain, fun n => plainSeg_natToDec (n + 1),
    getDiffLines_agree, ?_⟩
  intro b a opts notes hkeys
  rw [getObjectDiff, getObjectDiffSpec,
    getDiffLines_agree (buildDiff b a) _ _ _ _ _ hkeys (Or.inl rfl)]

/-- Witness for C10 at concrete inputs: plain joins at the root and below,
a plain one-based index, and renderer agreement on a one-property diff
with plain keys. -/
theorem c10_witness :
    joinPath "" "a" = "a" ∧ joinPath "Resources" "a" = "Resources/a" ∧
    plainSeg (natToDec 1) = true ∧
    getObjectDiff (Json.obj [("a", Json.num 1)]) (Json.obj [("a", Json.num 2)])
      { showColor := some false } [("a", "NOTE")] =
    getObjectDiffSpec (Json.obj [("a", Json.num 1)]) (Json.obj [("a", Json.num 2)])
      { showColor := some false } [("a", "NOTE")] := by
  refine ⟨c10_plain_path_notes.1 "a" (by decide),
    c10_plain_path_notes.2.1 "Resources" "a" (by decide) (by decide),
    c10_plain_path_notes.2.2.1 0,
    c10_plain_path_notes.2.2.2.2 (Json.obj [("a", Json.num 1)]) (Json.obj [("a", Json.num 2)])
      { showColor := some false } [("a", "NOTE")] ?_⟩
  simp [buildDiff, buildObjectDiff, buildObjectProps, keysList, dedupKeys, containsKey,
    lookupValD, lookupVal, isNullish, getValueType, primStrictEq, diffKeysPlain,
    nodeKeysPlain, propsKeysPlain, plainSeg]
